import Mathlib

/-!
# Cube timer (`static/js/cube_timer.js`): scramble generator, time formatting, timer state machine

A shallow embedding of the script and the properties proved about it.

Modelling conventions.

* `Math.random()` is an environment input: a random source is a stream `Nat → RandomValue`
  of doubles in `[0,1)`, and every function that draws from it threads the number of
  calls made so far.  The product in `Math.floor(Math.random() * n)` is rounded to the
  nearest double, ties to even, as the script's multiplication is.
* `Date.now()` is an environment input: the clock reading is an argument (`now : Int`)
  of every operation that reads the clock.
* Clock readings and their differences are integers.  In `formatTime` the quotient
  `ms / 1000` is rounded to the nearest double before `Math.floor`, and numbers are
  rendered as the script's number-to-string conversion renders them (shortest digits
  that identify the double, exponent notation from `1e21` on); its argument is meant
  to be a double, that is, an integer with at most 53 significant bits.
* The `do … while` rejection loop of `generateScramble` has no bound in the source, so
  the embedding gives it a budget (`fuel` = number of iterations allowed for one run of
  the loop); `none` means that the budget was exhausted, and "the call never returns"
  is "the result is `none` for every budget".
* The DOM is reduced to what the script reads and writes: the text of the two display
  elements and the membership of the tokens `ready` and `running` in the class list of
  the time display.  `setInterval`/`clearInterval` are modelled by the list of interval
  ids that the host currently has registered.
-/

namespace CubeTimer

/-! ## Double arithmetic -/

/-- The integer nearest to `a / d`, the even one when two are equally near. -/
def roundHalfEven (a d : Nat) : Nat :=
  let q := a / d
  let r := a % d
  if 2 * r < d then q else if d < 2 * r then q + 1 else if q % 2 = 0 then q else q + 1

/-- The least `u`, at or above the given one, with `a < 2 ^ (53 + u)`: the number of bits by
which `a` exceeds the 53 bits of a double (searched in at most `fuel` steps). -/
def excessBits (a : Nat) : Nat → Nat → Nat
  | 0, u => u
  | fuel + 1, u => if a < 2 ^ (53 + u) then u else excessBits a fuel (u + 1)

/-- The double nearest to the natural number `a`: `a` rounded to 53 significant bits, ties to
even. -/
def round53 (a : Nat) : Nat :=
  roundHalfEven a (2 ^ excessBits a a 0) * 2 ^ excessBits a a 0

/-! ## Random source -/

/-- A value returned by `Math.random()`: a double in `[0,1)`, that is, `mant / 2 ^ exp` with a
mantissa of at most 53 bits. -/
structure RandomValue where
  mant : Nat
  exp : Nat
  mant_lt : mant < 2 ^ 53
  lt_one : mant < 2 ^ exp
  exp_le : exp ≤ 1074

/-- `Math.floor(r * n)` for a random value `r`: the product `mant * n / 2 ^ exp` is rounded to
the nearest double (scaling by a power of two is exact), then rounded down. -/
def RandomValue.floorMul (r : RandomValue) (n : Nat) : Nat :=
  round53 (r.mant * n) / 2 ^ r.exp

/-- `xs[Math.floor(r * xs.length)]` for a non-empty array `xs`: the index is in range because
the double product of `r < 1` and `xs.length` stays below `xs.length`. -/
def pick (xs : List String) (h : 0 < xs.length) (r : RandomValue) : String :=
  xs.get ⟨r.floorMul xs.length, by
    have hspec : ∀ (a fuel u : Nat), a < 2 ^ (53 + u + fuel) → (u = 0 ∨ 2 ^ (52 + u) ≤ a) →
        a < 2 ^ (53 + excessBits a fuel u) ∧
          (excessBits a fuel u = 0 ∨ 2 ^ (52 + excessBits a fuel u) ≤ a) := by
      intro a fuel
      induction fuel with
      | zero => intro u h1 h2; exact ⟨h1, h2⟩
      | succ f ih =>
        intro u h1 h2
        by_cases hlt : a < 2 ^ (53 + u)
        · rw [excessBits, if_pos hlt]
          exact ⟨hlt, h2⟩
        · rw [excessBits, if_neg hlt]
          refine ih (u + 1) ?_ (Or.inr ?_)
          · rwa [show 53 + (u + 1) + f = 53 + u + (f + 1) by omega]
          · rw [show 52 + (u + 1) = 53 + u by omega]
            exact Nat.le_of_not_lt hlt
    have hround : ∀ a d : Nat, 0 < d → 2 * (roundHalfEven a d * d) ≤ 2 * a + d := by
      intro a d hd
      have hdm := Nat.div_add_mod a d
      have hmul : d * (a / d) = a / d * d := Nat.mul_comm _ _
      unfold roundHalfEven
      simp only
      split
      · omega
      · split
        · rw [Nat.add_mul]; omega
        · split
          · omega
          · rw [Nat.add_mul]; omega
    generalize hn : xs.length = n at h ⊢
    unfold RandomValue.floorMul round53
    have hm1 := r.mant_lt
    have hm2 := r.lt_one
    obtain ⟨-, hu⟩ := hspec (r.mant * n) (r.mant * n) 0
      (Nat.lt_of_lt_of_le (Nat.lt_two_pow _)
        (Nat.pow_le_pow_right (by decide) (by omega))) (Or.inl rfl)
    generalize excessBits (r.mant * n) (r.mant * n) 0 = u at hu ⊢
    rw [Nat.div_lt_iff_lt_mul (Nat.pos_pow_of_pos _ (by decide))]
    have hr := hround (r.mant * n) (2 ^ u) (Nat.pos_pow_of_pos _ (by decide))
    have hle : r.mant * n + n ≤ n * 2 ^ r.exp := by
      have : (r.mant + 1) * n ≤ 2 ^ r.exp * n := Nat.mul_le_mul_right n hm2
      rw [Nat.add_mul, Nat.one_mul, Nat.mul_comm (2 ^ r.exp)] at this
      exact this
    rcases hu with hu | hu
    · subst hu
      simp only [pow_zero, Nat.mul_one] at hr ⊢
      omega
    · have h2 : 2 ^ u < 2 * n := by
        have h3 : 2 ^ 52 * 2 ^ u < 2 ^ 52 * (2 * n) := by
          rw [← Nat.pow_add]
          calc 2 ^ (52 + u) ≤ r.mant * n := hu
            _ < 2 ^ 53 * n := Nat.mul_lt_mul_of_pos_right hm1 h
            _ = 2 ^ 52 * (2 * n) := by ring
        exact Nat.lt_of_mul_lt_mul_left h3
      omega⟩

/-! ## generateScramble -/

/-- `const faces = ["U", "D", "L", "R", "F", "B"]`. -/
def faces : List String := ["U", "D", "L", "R", "F", "B"]

/-- `const modifiers = ["", "'", "2"]`. -/
def modifiers : List String := ["", "\x27", "2"]

/-- `const scrambleLength = 20`. -/
def scrambleLength : Nat := 20

/-- The loop `do { face = faces[Math.floor(Math.random() * faces.length)] } while (face === lastFace)`,
run with a budget of `fuel` iterations from the point where `calls` random values have been
consumed.  Returns the accepted face and the new number of consumed values. -/
def drawFace (rnd : Nat → RandomValue) (lastFace : Option String) :
    Nat → Nat → Option (String × Nat)
  | 0, _ => none
  | fuel + 1, calls =>
    let face := pick faces (by decide) (rnd calls)
    if some face = lastFace then drawFace rnd lastFace fuel (calls + 1)
    else some (face, calls + 1)

/-- The `for` loop of `generateScramble` with `remaining = scrambleLength - i` iterations to go;
`scramble` and `lastFace` are the local variables of the source. -/
def scrambleLoop (rnd : Nat → RandomValue) (fuel : Nat) :
    Nat → List String → Option String → Nat → Option (List String × Nat)
  | 0, scramble, _, calls => some (scramble, calls)
  | remaining + 1, scramble, lastFace, calls =>
    match drawFace rnd lastFace fuel calls with
    | none => none
    | some (face, calls1) =>
      let move := face ++ pick modifiers (by decide) (rnd calls1)
      scrambleLoop rnd fuel remaining (scramble ++ [move]) (some face) (calls1 + 1)

/-- The array `scramble` at the `return` statement of `generateScramble`. -/
def scrambleMoves (rnd : Nat → RandomValue) (fuel calls : Nat) : Option (List String × Nat) :=
  scrambleLoop rnd fuel scrambleLength [] none calls

/-- `generateScramble()`: the moves joined by two spaces (`scramble.join("  ")`), together with
the number of random values consumed so far. -/
def generateScramble (rnd : Nat → RandomValue) (fuel calls : Nat) : Option (String × Nat) :=
  match scrambleMoves rnd fuel calls with
  | none => none
  | some (scramble, calls1) => some ("  ".intercalate scramble, calls1)

/-- The face of a move: its leading letter. -/
def faceOf (move : String) : Option Char := move.data.head?

/-! ## formatTime -/

/-- `s.padStart(targetLength, padChar)` for a one-character pad string. -/
def padStart (s : String) (targetLength : Nat) (padChar : Char) : String :=
  String.mk (List.replicate (targetLength - s.length) padChar) ++ s

/-- The least `s`, at or above the given one, with `d * 2 ^ 52 ≤ a * 2 ^ s`: the scaling that
brings `a / d` to a 53-bit mantissa (searched in at most `fuel` steps). -/
def scaleBits (a d : Nat) : Nat → Nat → Nat
  | 0, s => s
  | fuel + 1, s => if d * 2 ^ 52 ≤ a * 2 ^ s then s else scaleBits a d fuel (s + 1)

/-- The least `u`, at or above the given one, with `a < d * 2 ^ (53 + u)` (searched in at most
`fuel` steps). -/
def quotientExcess (a d : Nat) : Nat → Nat → Nat
  | 0, u => u
  | fuel + 1, u => if a < d * 2 ^ (53 + u) then u else quotientExcess a d fuel (u + 1)

/-- The double nearest to `a / d` (the script's `a / d`), as a pair `(num, s)` that stands for
`num / 2 ^ s`: the quotient is rounded to a 53-bit mantissa, ties to even. -/
def divDouble (a d : Nat) : Nat × Nat :=
  if a = 0 then (0, 0)
  else if d * 2 ^ 53 ≤ a then
    (roundHalfEven a (d * 2 ^ quotientExcess a d a 0) * 2 ^ quotientExcess a d a 0, 0)
  else
    (roundHalfEven (a * 2 ^ scaleBits a d (d + 52) 0) d, scaleBits a d (d + 52) 0)

/-- `Math.floor(ms / d)` for an integer `ms` and a positive integer `d`. -/
def floorDiv (ms : Int) (d : Nat) : Int :=
  if 0 ≤ ms then
    (((divDouble ms.natAbs d).1 / 2 ^ (divDouble ms.natAbs d).2 : Nat) : Int)
  else
    -((((divDouble ms.natAbs d).1 + 2 ^ (divDouble ms.natAbs d).2 - 1) /
        2 ^ (divDouble ms.natAbs d).2 : Nat) : Int)

/-- The decimals `s * 10 ^ (n - k)` with exactly `k` digits `s` next to `x` whose nearest double
is `x`, as pairs `(s, n - k)`. -/
def shortestAt (x k n : Nat) : List (Nat × Nat) :=
  if k ≤ n then
    ([x / 10 ^ (n - k), x / 10 ^ (n - k) + 1].filter (fun s =>
      decide (10 ^ (k - 1) ≤ s) && decide (s < 10 ^ k) &&
        decide (round53 (s * 10 ^ (n - k)) = x))).map (fun s => (s, n - k))
  else []

/-- The distance of the decimal `c.1 * 10 ^ c.2` from `x`. -/
def candidateError (x : Nat) (c : Nat × Nat) : Nat :=
  (c.1 * 10 ^ c.2 - x) + (x - c.1 * 10 ^ c.2)

/-- The decimal of the list closest to `x`, the one with even digits when two are equally
close. -/
def closest (x : Nat) : List (Nat × Nat) → Option (Nat × Nat)
  | [] => none
  | c :: rest =>
    match closest x rest with
    | none => some c
    | some b =>
      if candidateError x c < candidateError x b then some c
      else if candidateError x b < candidateError x c then some b
      else if c.1 % 2 = 0 then some c else some b

/-- The shortest decimal that identifies the double `x`: the least number of digits `k`, from
the given one on, for which some `k`-digit decimal has `x` as its nearest double. -/
def shortestFrom (x : Nat) : Nat → Nat → Option (Nat × Nat)
  | 0, _ => none
  | fuel + 1, k =>
    match closest x (shortestAt x k (Nat.toDigits 10 x).length ++
        shortestAt x k ((Nat.toDigits 10 x).length + 1)) with
    | some c => some c
    | none => shortestFrom x fuel (k + 1)

/-- The digits `s` followed by `p` zeros when that has at most 21 digits, and exponent notation
(`d.ddde+N`) otherwise. -/
def renderDigits (s p : Nat) : String :=
  let digits := Nat.toDigits 10 s
  let n := digits.length + p
  if n ≤ 21 then String.mk (digits ++ List.replicate p '0')
  else
    String.mk (digits.take 1 ++ (if digits.length = 1 then [] else '.' :: digits.drop 1)) ++
      "e+" ++ toString (n - 1)

/-- Number-to-string conversion of a non-negative integer-valued double: below `2 ^ 53` the
decimal digits of the integer, from there on the shortest digits that identify the double. -/
def natToString (x : Nat) : String :=
  if x < 2 ^ 53 then toString x
  else
    match shortestFrom x 17 1 with
    | some c => renderDigits c.1 c.2
    | none => toString x

/-- Number-to-string conversion of an integer-valued double (`${v}`, `v.toString()`). -/
def numberToString (v : Int) : String :=
  if v < 0 then "-" ++ natToString v.natAbs else natToString v.natAbs

/-- `formatTime(ms)`: `Math.floor(ms / 1000)` rounds the double quotient down, `ms % 1000` is
exact and takes the sign of `ms`. -/
def formatTime (ms : Int) : String :=
  let seconds := floorDiv ms 1000
  let milliseconds := Int.tmod ms 1000
  numberToString seconds ++ "." ++ padStart (numberToString milliseconds) 3 '0'

/-- The spec's rendering of the millisecond part: exactly three decimal digits, zero-padded. -/
def threeDigits (m : Nat) : String :=
  String.mk [Nat.digitChar (m / 100 % 10), Nat.digitChar (m / 10 % 10), Nat.digitChar (m % 10)]

/-- The spec's time format: seconds (integer division by 1000, natural rendering), a dot, and the
remainder zero-padded to three digits. -/
def specFormat (ms : Nat) : String :=
  toString (ms / 1000) ++ "." ++ threeDigits (ms % 1000)

/-! ## Timer state machine -/

/-- The value of the module variable `state`. -/
inductive TimerState where
  | idle
  | prepare
  | running
  | stopped
  deriving DecidableEq, Repr

/-- The module variables of the script together with the part of the page and of the host that
the script reads and writes. -/
structure Machine where
  /-- `timer`: the interval id, `none` for `null`. -/
  timer : Option Nat
  /-- `elapsedTime` (milliseconds). -/
  elapsedTime : Int
  /-- `startTime` (clock reading). -/
  startTime : Int
  /-- `state`. -/
  state : TimerState
  /-- `timeDisplay.textContent`. -/
  timeText : String
  /-- whether `timeDisplay.classList` contains `"ready"`. -/
  readyCue : Bool
  /-- whether `timeDisplay.classList` contains `"running"`. -/
  runningCue : Bool
  /-- `scrambleDisplay.textContent`. -/
  scrambleText : String
  /-- host: the ids of the intervals currently registered by `setInterval`. -/
  intervals : List Nat
  /-- host: the id the next `setInterval` call returns. -/
  nextTimerId : Nat
  /-- number of `Math.random()` calls made so far. -/
  randomCalls : Nat
  deriving DecidableEq, Repr

/-- The body of the interval callback registered by `startTimer`. -/
def intervalCallback (now : Int) (m : Machine) : Machine :=
  let elapsedTime := now - m.startTime
  { m with elapsedTime := elapsedTime, timeText := formatTime elapsedTime }

/-- `startTimer()` at clock reading `now`. -/
def startTimer (now : Int) (m : Machine) : Machine :=
  { m with
    startTime := now - m.elapsedTime
    timer := some m.nextTimerId
    intervals := m.nextTimerId :: m.intervals
    nextTimerId := m.nextTimerId + 1 }

/-- `clearInterval(id)`: `clearInterval(null)` does nothing. -/
def clearInterval (id : Option Nat) (intervals : List Nat) : List Nat :=
  match id with
  | none => intervals
  | some i => intervals.filter (fun j => j ≠ i)

/-- `stopTimer()`. -/
def stopTimer (m : Machine) : Machine :=
  { m with intervals := clearInterval m.timer m.intervals, timer := none }

/-- `resetTimer()`. -/
def resetTimer (m : Machine) : Machine :=
  { m with elapsedTime := 0, timeText := formatTime 0 }

/-- `handleDown()`.  Only the `stopped` branch can fail to return (it calls `generateScramble`). -/
def handleDown (rnd : Nat → RandomValue) (fuel : Nat) (m : Machine) : Option Machine :=
  match m.state with
  | TimerState.idle => some { m with state := TimerState.prepare, readyCue := true }
  | TimerState.running =>
    let m1 := stopTimer m
    some { m1 with state := TimerState.stopped, runningCue := false }
  | TimerState.stopped =>
    let m1 := resetTimer m
    match generateScramble rnd fuel m1.randomCalls with
    | none => none
    | some (scramble, calls) =>
      some { m1 with
        scrambleText := scramble
        randomCalls := calls
        state := TimerState.idle
        readyCue := false
        runningCue := false }
  | TimerState.prepare => some m

/-- `handleUp()` at clock reading `now`. -/
def handleUp (now : Int) (m : Machine) : Machine :=
  match m.state with
  | TimerState.prepare =>
    let m1 := startTimer now m
    { m1 with state := TimerState.running, readyCue := false, runningCue := true }
  | TimerState.idle => { m with readyCue := false }
  | _ => m

/-- One firing of the periodic tick: the host runs the callback only while an interval is
registered. -/
def tick (now : Int) (m : Machine) : Machine :=
  if m.intervals = [] then m else intervalCallback now m

/-- The signals the machine reacts to. -/
inductive Event where
  | down
  | up
  | tick
  deriving DecidableEq, Repr

/-- Delivery of one event at clock reading `now`. -/
def step (rnd : Nat → RandomValue) (fuel : Nat) (m : Machine) (e : Event) (now : Int) :
    Option Machine :=
  match e with
  | Event.down => handleDown rnd fuel m
  | Event.up => some (handleUp now m)
  | Event.tick => some (tick now m)

/-- Delivery of a sequence of events, each with its clock reading. -/
def run (rnd : Nat → RandomValue) (fuel : Nat) : Machine → List (Event × Int) → Option Machine
  | m, [] => some m
  | m, (e, now) :: rest =>
    match step rnd fuel m e now with
    | none => none
    | some m1 => run rnd fuel m1 rest

/-- The part of the initial page the script depends on (the markup is not part of the script). -/
structure Page where
  timeText : String
  readyCue : Bool
  runningCue : Bool

/-- Module initialisation: the variable initialisers and
`scrambleDisplay.textContent = generateScramble()`. -/
def init (rnd : Nat → RandomValue) (fuel : Nat) (page : Page) : Option Machine :=
  match generateScramble rnd fuel 0 with
  | none => none
  | some (scramble, calls) =>
    some
      { timer := none
        elapsedTime := 0
        startTime := 0
        state := TimerState.idle
        timeText := page.timeText
        readyCue := page.readyCue
        runningCue := page.runningCue
        scrambleText := scramble
        intervals := []
        nextTimerId := 1
        randomCalls := calls }

/-- A machine state is reachable when some finite sequence of events leads to it from the
initial state. -/
def Reachable (rnd : Nat → RandomValue) (page : Page) (m : Machine) : Prop :=
  ∃ fuel evs m0, init rnd fuel page = some m0 ∧ run rnd fuel m0 evs = some m

/-- The transition table of the spec, `down` column. -/
def downTable : TimerState → TimerState
  | TimerState.idle => TimerState.prepare
  | TimerState.prepare => TimerState.prepare
  | TimerState.running => TimerState.stopped
  | TimerState.stopped => TimerState.idle

/-- The transition table of the spec, `up` column. -/
def upTable : TimerState → TimerState
  | TimerState.idle => TimerState.idle
  | TimerState.prepare => TimerState.running
  | TimerState.running => TimerState.running
  | TimerState.stopped => TimerState.stopped

/-- Delivery of a sequence of ticks at the given clock readings. -/
def ticks (nows : List Int) (m : Machine) : Machine :=
  nows.foldl (fun a now => tick now a) m

/-- The pairing of the tick handle with the Running state, and the reset of the elapsed time
outside a run: the invariant of the reachable states. -/
def TimerInv (m : Machine) : Prop :=
  (m.state = TimerState.running → ∃ id, m.timer = some id ∧ m.intervals = [id]) ∧
  (m.state ≠ TimerState.running → m.timer = none ∧ m.intervals = []) ∧
  (m.state = TimerState.idle ∨ m.state = TimerState.prepare → m.elapsedTime = 0)

/-! ## Sample random sources -/

/-- The source that always yields `0`. -/
def zeroSource : Nat → RandomValue := fun _ => ⟨0, 0, by decide, by decide, by decide⟩

/-- The numerators, over 8, of the six values of `cycleSource`. -/
def cycleMant (j : Nat) : Nat :=
  if j = 0 then 0 else if j = 1 then 2 else if j = 2 then 3 else if j = 3 then 4
  else if j = 4 then 6 else 7

/-- The source that yields `0, 1/4, 3/8, 1/2, 3/4, 7/8, 0, …`, which select the faces
`U, D, L, R, F, B` in turn. -/
def cycleSource : Nat → RandomValue := fun i =>
  ⟨cycleMant (i % 6), 3, by unfold cycleMant; split_ifs <;> decide,
    by unfold cycleMant; split_ifs <;> decide, by decide⟩

/-- The source that agrees with `cycleSource` on its first 40 values and yields `0` from then on. -/
def stallSource : Nat → RandomValue := fun i =>
  ⟨if i < 40 then cycleMant (i % 6) else 0, 3,
    by unfold cycleMant; split_ifs <;> decide, by unfold cycleMant; split_ifs <;> decide,
    by decide⟩

/-- A page whose time display shows `0.000` and carries no cue. -/
def plainPage : Page := ⟨"0.000", false, false⟩

/-- The scramble that `cycleSource` produces from its first 40 values. -/
def cycleScramble : String :=
  "U  L\x27  F2  U  L\x27  F2  U  L\x27  F2  U  L\x27  F2  U  L\x27  F2  U  L\x27  F2  U  L\x27"

/-- The scramble that `cycleSource` produces from its values 40 to 79. -/
def cycleScramble2 : String :=
  "F2  U  L\x27  F2  U  L\x27  F2  U  L\x27  F2  U  L\x27  F2  U  L\x27  F2  U  L\x27  F2  U"

/-- The initial state for `cycleSource` and `plainPage`. -/
def loadedMachine : Machine :=
  { timer := none
    elapsedTime := 0
    startTime := 0
    state := TimerState.idle
    timeText := "0.000"
    readyCue := false
    runningCue := false
    scrambleText := cycleScramble
    intervals := []
    nextTimerId := 1
    randomCalls := 40 }

/-- The Running state reached from `loadedMachine` by `down`, `up` at 5 and a tick at 1235. -/
def runningMachine : Machine :=
  { loadedMachine with
    timer := some 1
    elapsedTime := 1230
    startTime := 5
    state := TimerState.running
    timeText := "1.230"
    runningCue := true
    intervals := [1]
    nextTimerId := 2 }

/-- The Stopped state reached from `runningMachine` by `down`. -/
def staleMachine : Machine :=
  { runningMachine with
    timer := none
    state := TimerState.stopped
    runningCue := false
    intervals := [] }

/-- The Stopped state reached with `stallSource` from `plainPage` by `down`, `up`, `down`. -/
def stalledMachine : Machine :=
  { timer := none
    elapsedTime := 0
    startTime := 0
    state := TimerState.stopped
    timeText := "0.000"
    readyCue := false
    runningCue := false
    scrambleText := cycleScramble
    intervals := []
    nextTimerId := 2
    randomCalls := 40 }

/-- The loop invariant of `generateScramble`: consecutive moves differ in their face, every move
is a face followed by a modifier, and `lastFace` is the face of the last move. -/
def ScrambleInv (scramble : List String) (lastFace : Option String) : Prop :=
  List.Chain' (fun a b => faceOf a ≠ faceOf b) scramble ∧
  (∀ mv ∈ scramble, ∃ f ∈ faces, ∃ mo ∈ modifiers, mv = f ++ mo) ∧
  (∀ x ∈ scramble.getLast?, ∃ f ∈ faces, lastFace = some f ∧ faceOf x = f.data.head?)

/-- The Idle state reached from `staleMachine` by the acknowledging `down`. -/
def resetMachine : Machine :=
  { staleMachine with
    elapsedTime := 0
    timeText := "0.000"
    scrambleText := cycleScramble2
    randomCalls := 80
    state := TimerState.idle }

/-- The Prepare state reached from `loadedMachine` by `down`. -/
def preparedMachine : Machine :=
  { loadedMachine with state := TimerState.prepare, readyCue := true }

/-- The visual cue as a function of the state: `ready` exactly in Prepare, `running` exactly in
Running. -/
def CueInv (m : Machine) : Prop :=
  (m.readyCue = true ↔ m.state = TimerState.prepare) ∧
  (m.runningCue = true ↔ m.state = TimerState.running)

/-- The 18 valid moves: a face letter followed by nothing, by an apostrophe or by `2`. -/
def validMoves : List String :=
  ["U", "U\x27", "U2", "D", "D\x27", "D2", "L", "L\x27", "L2",
   "R", "R\x27", "R2", "F", "F\x27", "F2", "B", "B\x27", "B2"]

/-- Splitting a list of characters at every (leftmost, non-overlapping) occurrence of two
consecutive spaces; `pending` records that the previous character was a space not yet
attributed, and `cur` is the piece read so far. -/
def splitGo : Bool → List Char → List Char → List (List Char)
  | false, cur, [] => [cur]
  | true, cur, [] => [cur ++ [' ']]
  | false, cur, c :: rest =>
    if c = ' ' then splitGo true cur rest else splitGo false (cur ++ [c]) rest
  | true, cur, c :: rest =>
    if c = ' ' then cur :: splitGo false [] rest else splitGo false (cur ++ [' ', c]) rest

/-- The pieces of `s.split("  ")`: the string split on the two-space separator. -/
def splitDoubleSpace (s : String) : List String :=
  (splitGo false [] s.data).map String.mk

/-- The number that a list of decimal digit characters stands for, most significant digit
first. -/
def readDigits (cs : List Char) : Nat :=
  cs.foldl (fun acc c => 10 * acc + (c.toNat - '0'.toNat)) 0

/-- The characters of a formatted time before the dot. -/
def secondsPart (s : String) : List Char :=
  s.data.takeWhile (fun c => c ≠ '.')

/-- The characters of a formatted time after the dot. -/
def millisPart (s : String) : List Char :=
  (s.data.dropWhile (fun c => c ≠ '.')).drop 1

/-- Reading a formatted time back: the digits before the dot as the integer `s`, the digits after
it as the integer `m`, giving `1000 * s + m`. -/
def readTime (s : String) : Nat :=
  1000 * readDigits (secondsPart s) + readDigits (millisPart s)

/-- Some run of the face-rejection loop among the next `remaining` positions never ends: either
every value of the source from index `calls` on selects `lastFace`, or the run at this position
returns and one at a later position never ends. -/
def LoopStalls (rnd : Nat → RandomValue) : Nat → Option String → Nat → Prop
  | 0, _, _ => False
  | remaining + 1, lastFace, calls =>
    (∀ k, calls ≤ k → some (pick faces (by decide) (rnd k)) = lastFace) ∨
    ∃ fuel face calls1, drawFace rnd lastFace fuel calls = some (face, calls1) ∧
      LoopStalls rnd remaining (some face) (calls1 + 1)

/-! ## Facts about formatTime -/

theorem toDigits_one {k : Nat} (h : k < 10) : Nat.toDigits 10 k = [Nat.digitChar k] := by
  have h0 : k / 10 = 0 := Nat.div_eq_of_lt h
  have h1 : k % 10 = k := Nat.mod_eq_of_lt h
  simp [Nat.toDigits, Nat.toDigitsCore, h0, h1]

theorem toDigits_two {k : Nat} (h : 10 ≤ k) (h2 : k < 100) :
    Nat.toDigits 10 k = [Nat.digitChar (k / 10), Nat.digitChar (k % 10)] := by
  obtain ⟨j, rfl⟩ : ∃ j, k = j + 1 := ⟨k - 1, by omega⟩
  have h0 : (j + 1) / 10 ≠ 0 := by omega
  have h1 : (j + 1) / 10 / 10 = 0 := by omega
  have h3 : (j + 1) / 10 % 10 = (j + 1) / 10 := by omega
  simp [Nat.toDigits, Nat.toDigitsCore, h0, h1, h3]

theorem toDigits_three {k : Nat} (h : 100 ≤ k) (h2 : k < 1000) :
    Nat.toDigits 10 k =
      [Nat.digitChar (k / 100), Nat.digitChar (k / 10 % 10), Nat.digitChar (k % 10)] := by
  obtain ⟨j, rfl⟩ : ∃ j, k = j + 2 := ⟨k - 2, by omega⟩
  have h0 : (j + 2) / 10 ≠ 0 := by omega
  have h1 : (j + 2) / 10 / 10 ≠ 0 := by omega
  have h3 : (j + 2) / 10 / 10 / 10 = 0 := by omega
  have h4 : (j + 2) / 10 / 10 % 10 = (j + 2) / 100 := by omega
  simp [Nat.toDigits, Nat.toDigitsCore, h0, h1, h3, h4]

theorem padStart_repr {k : Nat} (h : k < 1000) :
    padStart (toString k) 3 '0' = threeDigits k := by
  apply String.ext
  rcases Nat.lt_or_ge k 10 with h1 | h1
  · have e1 : k / 100 % 10 = 0 := by omega
    have e2 : k / 10 % 10 = 0 := by omega
    have e3 : k % 10 = k := by omega
    simp [padStart, threeDigits, toString, Nat.repr, toDigits_one h1, e1, e2, e3, List.asString]
    rfl
  · rcases Nat.lt_or_ge k 100 with h2 | h2
    · have e1 : k / 100 % 10 = 0 := by omega
      have e2 : k / 10 % 10 = k / 10 := by omega
      simp [padStart, threeDigits, toString, Nat.repr, toDigits_two h1 h2, e1, e2, List.asString]
      rfl
    · have e1 : k / 100 % 10 = k / 100 := by omega
      simp [padStart, threeDigits, toString, Nat.repr, toDigits_three h2 h, e1, List.asString]

theorem roundHalfEven_ge (a d : Nat) : a / d ≤ roundHalfEven a d := by
  unfold roundHalfEven
  simp only
  split
  · exact Nat.le_refl _
  · split
    · omega
    · split <;> omega

theorem roundHalfEven_le (a d : Nat) :
    roundHalfEven a d = a / d ∨ (roundHalfEven a d = a / d + 1 ∧ d ≤ 2 * (a % d)) := by
  unfold roundHalfEven
  simp only
  split
  · exact Or.inl rfl
  · split
    · exact Or.inr ⟨rfl, by omega⟩
    · split
      · exact Or.inl rfl
      · exact Or.inr ⟨rfl, by omega⟩

theorem scaleBits_spec (a d : Nat) :
    ∀ fuel s, d * 2 ^ 52 ≤ a * 2 ^ (s + fuel) → d * 2 ^ 52 ≤ a * 2 ^ scaleBits a d fuel s := by
  intro fuel
  induction fuel with
  | zero => intro s h; exact h
  | succ f ih =>
    intro s h
    by_cases hle : d * 2 ^ 52 ≤ a * 2 ^ s
    · rw [scaleBits, if_pos hle]
      exact hle
    · rw [scaleBits, if_neg hle]
      exact ih (s + 1) (by rwa [show s + 1 + f = s + (f + 1) by omega])

/-- Below `2 ^ 53` the rounding of the quotient does not change its integer part:
`Math.floor(n / 1000)` is the integer quotient. -/
theorem floorDiv_natCast {n : Nat} (h : n < 2 ^ 53) :
    floorDiv (n : Int) 1000 = ((n / 1000 : Nat) : Int) := by
  unfold floorDiv
  rw [if_pos (Int.ofNat_nonneg n), Int.natAbs_ofNat]
  congr 1
  unfold divDouble
  by_cases h0 : n = 0
  · subst h0
    rfl
  · rw [if_neg h0, if_neg (by omega)]
    simp only
    have hpos : 0 < n := Nat.pos_of_ne_zero h0
    have hspec := scaleBits_spec n 1000 (1000 + 52) 0 (by
      have h1 : (1000 : Nat) * 2 ^ 52 ≤ 1 * 2 ^ (0 + (1000 + 52)) := by norm_num
      exact le_trans h1 (Nat.mul_le_mul_right _ hpos))
    generalize scaleBits n 1000 (1000 + 52) 0 = s at hspec ⊢
    generalize hP : 2 ^ s = P at hspec ⊢
    have hPpos : 0 < P := by rw [← hP]; exact Nat.pos_pow_of_pos _ (by decide)
    have hP500 : 500 < P := by
      by_contra hc
      have hc2 : P ≤ 500 := Nat.le_of_not_lt hc
      have h3 : n * P ≤ n * 500 := Nat.mul_le_mul_left n hc2
      have h4 : (2 : Nat) ^ 53 = 2 * 2 ^ 52 := by norm_num
      omega
    have hx : n * P = (n / 1000 * P) * 1000 + n % 1000 * P := by
      have hdm := Nat.div_add_mod n 1000
      calc n * P = (1000 * (n / 1000) + n % 1000) * P := by rw [hdm]
        _ = (n / 1000 * P) * 1000 + n % 1000 * P := by ring
    have hr : n % 1000 < 1000 := Nat.mod_lt n (by decide)
    have hX : n % 1000 * P ≤ 999 * P := Nat.mul_le_mul_right P (by omega)
    have hdiv : n * P / 1000 = n / 1000 * P + n % 1000 * P / 1000 := by
      rw [hx, Nat.add_comm, Nat.add_mul_div_right _ _ (by decide : 0 < 1000), Nat.add_comm]
    have hmod : n * P % 1000 = n % 1000 * P % 1000 := by
      rw [hx, Nat.add_comm, Nat.add_mul_mod_self_right]
    have hdm2 := Nat.div_add_mod (n % 1000 * P) 1000
    have hm2 : n % 1000 * P % 1000 < 1000 := Nat.mod_lt _ (by decide)
    have hlow := roundHalfEven_ge (n * P) 1000
    apply Nat.div_eq_of_lt_le
    · rw [hdiv] at hlow
      omega
    · rw [Nat.succ_mul]
      rcases roundHalfEven_le (n * P) 1000 with hq | ⟨hq, hhalf⟩
      · rw [hq, hdiv]
        omega
      · rw [hq, hdiv]
        rw [hmod] at hhalf
        omega

theorem natToString_of_lt {x : Nat} (h : x < 2 ^ 53) : natToString x = toString x := by
  unfold natToString
  rw [if_pos h]

theorem numberToString_natCast {x : Nat} (h : x < 2 ^ 53) :
    numberToString (x : Int) = toString x := by
  unfold numberToString
  rw [if_neg (by omega), Int.natAbs_ofNat, natToString_of_lt h]

/-- On non-negative integers below `2 ^ 53`, `formatTime` is the spec's time format. -/
theorem formatTime_natCast (n : Nat) (h : n < 2 ^ 53) : formatTime (n : Int) = specFormat n := by
  have h1 := floorDiv_natCast h
  have h2 : Int.tmod (n : Int) 1000 = ((n % 1000 : Nat) : Int) := rfl
  have h3 : n / 1000 < 2 ^ 53 := lt_of_le_of_lt (Nat.div_le_self _ _) h
  have h4 : n % 1000 < 2 ^ 53 := lt_of_lt_of_le (Nat.mod_lt n (by decide)) (by norm_num)
  simp only [formatTime, specFormat, h1, h2, numberToString_natCast h3,
    numberToString_natCast h4, padStart_repr (Nat.mod_lt n (by decide))]

/-! ## Facts about the scramble generator -/

theorem pick_mem (xs : List String) (h : 0 < xs.length) (r : RandomValue) : pick xs h r ∈ xs :=
  List.get_mem _ _ _

theorem faceOf_face_append {f : String} (hf : f ∈ faces) (mo : String) :
    faceOf (f ++ mo) = f.data.head? := by
  simp only [faces, List.mem_cons, List.mem_singleton, List.not_mem_nil, or_false] at hf
  rcases hf with rfl | rfl | rfl | rfl | rfl | rfl <;> simp [faceOf, String.data_append]

theorem face_head_injective {f g : String} (hf : f ∈ faces) (hg : g ∈ faces)
    (h : f.data.head? = g.data.head?) : f = g := by
  simp only [faces, List.mem_cons, List.mem_singleton, List.not_mem_nil, or_false] at hf hg
  rcases hf with rfl | rfl | rfl | rfl | rfl | rfl <;>
    rcases hg with rfl | rfl | rfl | rfl | rfl | rfl <;>
    first | rfl | exact absurd h (by decide)

/-- What a returning run of the rejection loop guarantees. -/
theorem drawFace_some {rnd : Nat → RandomValue} {lastFace : Option String} {fuel calls : Nat}
    {face : String} {calls1 : Nat} (h : drawFace rnd lastFace fuel calls = some (face, calls1)) :
    face ∈ faces ∧ some face ≠ lastFace ∧ calls < calls1 ∧ calls1 ≤ calls + fuel := by
  induction fuel generalizing calls with
  | zero => simp [drawFace] at h
  | succ n ih =>
    simp only [drawFace] at h
    split at h
    · obtain ⟨h1, h2, h3, h4⟩ := ih h
      exact ⟨h1, h2, by omega, by omega⟩
    · simp only [Option.some.injEq, Prod.mk.injEq] at h
      obtain ⟨rfl, rfl⟩ := h
      exact ⟨pick_mem _ _ _, by assumption, by omega, by omega⟩

/-- A larger budget does not change the outcome of a returning run of the rejection loop. -/
theorem drawFace_mono {rnd : Nat → RandomValue} {lastFace : Option String} {fuel fuel1 calls : Nat}
    {r : String × Nat} (hle : fuel ≤ fuel1) (h : drawFace rnd lastFace fuel calls = some r) :
    drawFace rnd lastFace fuel1 calls = some r := by
  induction fuel generalizing calls fuel1 with
  | zero => simp [drawFace] at h
  | succ n ih =>
    obtain ⟨k, rfl⟩ : ∃ k, fuel1 = k + 1 := ⟨fuel1 - 1, by omega⟩
    simp only [drawFace] at h ⊢
    split
    · rename_i hc
      rw [if_pos hc] at h
      exact ih (by omega) h
    · rename_i hc
      rw [if_neg hc] at h
      exact h

theorem scrambleLoop_spec {rnd : Nat → RandomValue} {fuel remaining : Nat}
    {scramble : List String} {lastFace : Option String} {calls : Nat}
    {res : List String} {calls1 : Nat}
    (hinv : ScrambleInv scramble lastFace)
    (h : scrambleLoop rnd fuel remaining scramble lastFace calls = some (res, calls1)) :
    res.length = scramble.length + remaining ∧
    List.Chain' (fun a b => faceOf a ≠ faceOf b) res ∧
    (∀ mv ∈ res, ∃ f ∈ faces, ∃ mo ∈ modifiers, mv = f ++ mo) ∧
    calls + 2 * remaining ≤ calls1 ∧ calls1 ≤ calls + remaining * (fuel + 1) := by
  induction remaining generalizing scramble lastFace calls with
  | zero =>
    simp only [scrambleLoop, Option.some.injEq, Prod.mk.injEq] at h
    obtain ⟨rfl, rfl⟩ := h
    exact ⟨rfl, hinv.1, hinv.2.1, by omega, by omega⟩
  | succ n ih =>
    simp only [scrambleLoop] at h
    split at h
    · exact absurd h (by simp)
    · rename_i face c1 hd
      obtain ⟨hf, hne, hlt, hle⟩ := drawFace_some hd
      have hinv1 : ScrambleInv
          (scramble ++ [face ++ pick modifiers (by decide) (rnd c1)]) (some face) := by
        refine ⟨?_, ?_, ?_⟩
        · rw [List.chain'_append]
          refine ⟨hinv.1, List.chain'_singleton _, ?_⟩
          intro x hx y hy
          simp only [List.head?_cons, Option.mem_def, Option.some.injEq] at hy
          subst hy
          obtain ⟨g, hg, hlast, hface⟩ := hinv.2.2 x hx
          rw [hface, faceOf_face_append hf]
          intro heq
          exact hne (by rw [hlast, face_head_injective hg hf heq])
        · intro mv hmv
          rcases List.mem_append.1 hmv with hm | hm
          · exact hinv.2.1 mv hm
          · rw [List.mem_singleton] at hm
            exact ⟨face, hf, _, pick_mem _ _ _, hm⟩
        · intro x hx
          simp only [List.getLast?_append, List.getLast?_singleton, Option.or,
            Option.mem_def, Option.some.injEq] at hx
          subst hx
          exact ⟨face, hf, rfl, faceOf_face_append hf _⟩
      obtain ⟨h1, h2, h3, h4, h5⟩ := ih hinv1 h
      refine ⟨?_, h2, h3, by omega, ?_⟩
      · simp only [List.length_append, List.length_singleton] at h1
        omega
      · have : (n + 1) * (fuel + 1) = n * (fuel + 1) + (fuel + 1) := by ring
        omega

theorem scrambleInv_nil : ScrambleInv [] none :=
  ⟨List.chain'_nil, by simp, by simp⟩

/-- A larger budget does not change the outcome of a returning run of the `for` loop. -/
theorem scrambleLoop_mono {rnd : Nat → RandomValue} {fuel fuel1 remaining : Nat}
    {scramble : List String} {lastFace : Option String} {calls : Nat}
    {r : List String × Nat} (hle : fuel ≤ fuel1)
    (h : scrambleLoop rnd fuel remaining scramble lastFace calls = some r) :
    scrambleLoop rnd fuel1 remaining scramble lastFace calls = some r := by
  induction remaining generalizing scramble lastFace calls with
  | zero => simpa [scrambleLoop] using h
  | succ n ih =>
    simp only [scrambleLoop] at h ⊢
    split at h
    · exact absurd h (by simp)
    · rename_i face c1 hd
      rw [drawFace_mono hle hd]
      exact ih h

theorem generateScramble_mono {rnd : Nat → RandomValue} {fuel fuel1 calls : Nat}
    {r : String × Nat} (hle : fuel ≤ fuel1) (h : generateScramble rnd fuel calls = some r) :
    generateScramble rnd fuel1 calls = some r := by
  unfold generateScramble scrambleMoves at h ⊢
  split at h
  · exact absurd h (by simp)
  · rename_i ms c1 hd
    rw [scrambleLoop_mono hle hd]
    exact h


/-- A run of the rejection loop whose every draw repeats the previous face exhausts any budget. -/
theorem drawFace_stuck {rnd : Nat → RandomValue} {f : String} {calls : Nat}
    (h : ∀ k, calls ≤ k → pick faces (by decide) (rnd k) = f) (fuel : Nat) :
    drawFace rnd (some f) fuel calls = none := by
  induction fuel generalizing calls with
  | zero => rfl
  | succ n ih =>
    simp only [drawFace, h calls (Nat.le_refl _), if_true]
    exact ih (fun k hk => h k (by omega))

/-- On a source that keeps yielding the same face from some point on, a `generateScramble` call
that starts after that point exhausts any budget. -/
theorem generateScramble_stuck {rnd : Nat → RandomValue} {f : String} {calls : Nat}
    (h : ∀ k, calls ≤ k → pick faces (by decide) (rnd k) = f) (fuel : Nat) :
    generateScramble rnd fuel calls = none := by
  have h1 : ∀ remaining scramble,
      scrambleLoop rnd fuel (remaining + 1 + 1) scramble none calls = none := by
    intro remaining scramble
    cases fuel with
    | zero => rfl
    | succ n =>
      have h2 : drawFace rnd (some f) (n + 1) (calls + 1 + 1) = none :=
        drawFace_stuck (fun k hk => h k (by omega)) (n + 1)
      rw [scrambleLoop]
      simp only [drawFace, h calls (Nat.le_refl _), reduceCtorEq, if_false]
      rw [scrambleLoop, h2]
  have h3 := h1 18 []
  simp only [generateScramble, scrambleMoves, scrambleLength]
  rw [show (20 : Nat) = 18 + 1 + 1 from rfl, h3]

theorem pick_faces_zeroSource (k : Nat) : pick faces (by decide) (zeroSource k) = "U" := by
  show pick faces (by decide) ⟨0, 0, by decide, by decide, by decide⟩ = "U"
  decide

theorem pick_faces_stallSource {k : Nat} (hk : 40 ≤ k) :
    pick faces (by decide) (stallSource k) = "U" := by
  have h : stallSource k = ⟨0, 3, by decide, by decide, by decide⟩ := by
    simp [stallSource, if_neg (by omega : ¬ k < 40)]
  rw [h]
  decide

/-- The rounding of the product is visible: `0.8333333333333333 * 6` (mantissa
`3752999689475413`, exponent 52) is `4.999…` exactly and rounds to the double `5`, so this value
selects the face `B`, not `F`. -/
theorem pick_faces_rounded :
    pick faces (by decide) ⟨3752999689475413, 52, by decide, by decide, by decide⟩ = "B" ∧
    3752999689475413 * 6 / 2 ^ 52 = 4 := by
  constructor <;> decide

/-! ## The transition table -/

/-- C1 (as amended): the next-state function of `handleUp` equals the `up` column of the
transition table on every state and `handleUp` always returns; the next-state function of
`handleDown` equals the `down` column, `handleDown` returns on every Idle, Prepare and Running
state, and on a Stopped state it returns exactly when the `generateScramble` call it makes
returns. -/
theorem handle_next_state (rnd : Nat → RandomValue) (fuel : Nat) (now : Int) (m : Machine) :
    (handleUp now m).state = upTable m.state ∧
    (handleDown rnd fuel m).map Machine.state =
      if m.state = TimerState.stopped then
        (generateScramble rnd fuel m.randomCalls).map (fun _ => downTable m.state)
      else some (downTable m.state) := by
  constructor
  · unfold handleUp
    cases h : m.state <;> simp [upTable, startTimer, h]
  · unfold handleDown
    cases h : m.state <;> simp [downTable, stopTimer, resetTimer, h]
    cases generateScramble rnd fuel m.randomCalls <;> simp

/-- C1 (counterexample): `handleDown` is not defined on every state.  With the source
`stallSource` the page loads, and `down`, `up`, `down` lead to a Stopped state on which
`handleDown` returns under no budget. -/
theorem handleDown_not_total :
    (init stallSource 1 plainPage).bind
        (fun m0 => run stallSource 1 m0 [(Event.down, 0), (Event.up, 0), (Event.down, 1234)])
        = some stalledMachine ∧
      stalledMachine.state = TimerState.stopped ∧
      ∀ fuel, handleDown stallSource fuel stalledMachine = none := by
  refine ⟨by decide, rfl, ?_⟩
  intro fuel
  have h := @generateScramble_stuck stallSource "U" 40
    (fun k hk => pick_faces_stallSource hk) fuel
  simp [handleDown, resetTimer, stalledMachine, h]

/-! ## Shape of the scramble -/

/-- C2: whenever `generateScramble` returns, the array it joins has exactly 20 moves, every move
is a face letter followed by a modifier, no two consecutive moves have the same face, and the
returned string is that array joined by two spaces. -/
theorem generateScramble_length_and_faces (rnd : Nat → RandomValue) (fuel calls : Nat)
    (s : String) (calls1 : Nat) (h : generateScramble rnd fuel calls = some (s, calls1)) :
    ∃ moves, scrambleMoves rnd fuel calls = some (moves, calls1) ∧
      s = "  ".intercalate moves ∧
      moves.length = 20 ∧
      (∀ mv ∈ moves, ∃ f ∈ faces, ∃ mo ∈ modifiers, mv = f ++ mo ∧ faceOf mv = f.data.head?) ∧
      List.Chain' (fun a b => faceOf a ≠ faceOf b) moves := by
  unfold generateScramble at h
  split at h
  · exact absurd h (by simp)
  · rename_i moves c1 hm
    simp only [Option.some.injEq, Prod.mk.injEq] at h
    obtain ⟨rfl, rfl⟩ := h
    obtain ⟨h1, h2, h3, -, -⟩ := scrambleLoop_spec scrambleInv_nil hm
    refine ⟨moves, hm, rfl, by simpa [scrambleLength] using h1, ?_, h2⟩
    intro mv hmv
    obtain ⟨f, hf, mo, hmo, rfl⟩ := h3 mv hmv
    exact ⟨f, hf, mo, hmo, rfl, faceOf_face_append hf mo⟩

/-- C2 (witness): the source `cycleSource` makes `generateScramble` return under budget 1. -/
theorem generateScramble_length_and_faces_witness :
    ∃ moves, scrambleMoves cycleSource 1 0 = some (moves, 40) ∧
      cycleScramble = "  ".intercalate moves ∧
      moves.length = 20 ∧
      (∀ mv ∈ moves, ∃ f ∈ faces, ∃ mo ∈ modifiers, mv = f ++ mo ∧ faceOf mv = f.data.head?) ∧
      List.Chain' (fun a b => faceOf a ≠ faceOf b) moves :=
  generateScramble_length_and_faces cycleSource 1 0 _ 40 (by decide)

/-! ## Time format -/

/-- C3 (as amended): for every non-negative integer `ms` below `2 ^ 53`, `formatTime ms` is the
decimal rendering of `ms / 1000`, a dot, and `ms % 1000` as exactly three zero-padded digits;
`formatTime 0 = "0.000"`, `formatTime 1005 = "1.005"` and `formatTime 999 = "0.999"`. -/
theorem formatTime_spec (ms : Nat) (h : ms < 2 ^ 53) :
    formatTime (ms : Int) = toString (ms / 1000) ++ "." ++ threeDigits (ms % 1000) ∧
    (threeDigits (ms % 1000)).length = 3 ∧
    formatTime 0 = "0.000" ∧ formatTime 1005 = "1.005" ∧ formatTime 999 = "0.999" :=
  ⟨formatTime_natCast ms h, rfl, by decide, by decide, by decide⟩

/-- C3 (witness): `formatTime 9007199254740991`, the largest argument below `2 ^ 53`. -/
theorem formatTime_spec_witness :
    formatTime 9007199254740991 = "9007199254740.991" :=
  ((formatTime_spec 9007199254740991 (by decide)).1).trans (by decide)

/-- C3 (counterexample): two doubles beyond `2 ^ 53`.  At `140737488355328992` the quotient by
1000 rounds up to `140737488355329`, so `formatTime` does not start with the integer quotient
`140737488355328`; at `999999999999999983222784` (the double `1e24`) the seconds are rendered in
exponent notation. -/
theorem formatTime_beyond_exact_range :
    round53 140737488355328992 = 140737488355328992 ∧
    formatTime 140737488355328992 = "140737488355329.992" ∧
    toString (140737488355328992 / 1000) ++ "." ++ threeDigits (140737488355328992 % 1000)
      = "140737488355328.992" ∧
    round53 999999999999999983222784 = 999999999999999983222784 ∧
    formatTime 999999999999999983222784 = "1e+21.784" ∧
    toString (999999999999999983222784 / 1000) ++ "." ++
      threeDigits (999999999999999983222784 % 1000) = "999999999999999983222.784" := by
  refine ⟨by decide, by decide, by decide, by decide, by decide, by decide⟩

/-! ## Stopping the timer -/

theorem ticks_nil (m : Machine) : ticks [] m = m := rfl

theorem ticks_append (xs : List Int) (t : Int) (m : Machine) :
    ticks (xs ++ [t]) m = tick t (ticks xs m) := by
  simp [ticks, List.foldl_append]

/-- A tick changes nothing but `elapsedTime` and the time display. -/
theorem tick_frame (now : Int) (m : Machine) :
    (tick now m).state = m.state ∧ (tick now m).startTime = m.startTime ∧
    (tick now m).timer = m.timer ∧ (tick now m).intervals = m.intervals ∧
    (tick now m).readyCue = m.readyCue ∧ (tick now m).runningCue = m.runningCue ∧
    (tick now m).scrambleText = m.scrambleText ∧ (tick now m).nextTimerId = m.nextTimerId ∧
    (tick now m).randomCalls = m.randomCalls := by
  unfold tick
  split <;> simp [intervalCallback]

theorem ticks_frame (nows : List Int) (m : Machine) :
    (ticks nows m).state = m.state ∧ (ticks nows m).startTime = m.startTime ∧
    (ticks nows m).timer = m.timer ∧ (ticks nows m).intervals = m.intervals ∧
    (ticks nows m).readyCue = m.readyCue ∧ (ticks nows m).runningCue = m.runningCue ∧
    (ticks nows m).scrambleText = m.scrambleText ∧ (ticks nows m).nextTimerId = m.nextTimerId ∧
    (ticks nows m).randomCalls = m.randomCalls := by
  induction nows using List.reverseRecOn with
  | nil => simp [ticks_nil]
  | append_singleton xs t ih =>
    rw [ticks_append]
    obtain ⟨h1, h2, h3, h4, h5, h6, h7, h8, h9⟩ := tick_frame t (ticks xs m)
    obtain ⟨i1, i2, i3, i4, i5, i6, i7, i8, i9⟩ := ih
    exact ⟨h1.trans i1, h2.trans i2, h3.trans i3, h4.trans i4, h5.trans i5, h6.trans i6,
      h7.trans i7, h8.trans i8, h9.trans i9⟩

/-- While an interval is registered, the elapsed time and the display after a sequence of ticks
are those written by the last tick. -/
theorem ticks_last (nows : List Int) (m : Machine) (h : m.intervals ≠ []) :
    ((ticks nows m).elapsedTime, (ticks nows m).timeText) =
      match nows.getLast? with
      | none => (m.elapsedTime, m.timeText)
      | some t => (t - m.startTime, formatTime (t - m.startTime)) := by
  induction nows using List.reverseRecOn with
  | nil => rfl
  | append_singleton xs t _ =>
    rw [ticks_append]
    obtain ⟨-, h2, -, h4, -⟩ := ticks_frame xs m
    simp [tick, h4, h, intervalCallback, h2]

/-- `down` while Running cancels the tick and changes neither the elapsed time nor the display. -/
theorem handleDown_running (rnd : Nat → RandomValue) (fuel : Nat) (m : Machine)
    (h : m.state = TimerState.running) :
    handleDown rnd fuel m =
      some { m with
        intervals := clearInterval m.timer m.intervals
        timer := none
        state := TimerState.stopped
        runningCue := false } := by
  simp [handleDown, h, stopTimer]

/-- C4 (as amended): `down` while Running performs no recomputation: it cancels the tick and
leaves `elapsedTime` and the time display as they are.  After entering Running at clock reading
`T` with carried elapsed time `e` and any schedule of ticks, `down` leaves the displayed time
equal to `formatTime (t - (T - e))` for the reading `t` of the last tick that fired, or equal to
the display before the run if no tick fired; it shows `1.234` when `e = 0` and the last tick
fired at `T + 1234`. -/
theorem stop_shows_last_tick (rnd : Nat → RandomValue) (fuel : Nat) (m : Machine) (T : Int)
    (nows : List Int) (h : m.state = TimerState.prepare) :
    ∃ m3, handleDown rnd fuel (ticks nows (handleUp T m)) = some m3 ∧
      m3.state = TimerState.stopped ∧
      m3.timer = none ∧ m.nextTimerId ∉ m3.intervals ∧
      m3.elapsedTime = (ticks nows (handleUp T m)).elapsedTime ∧
      m3.timeText = (ticks nows (handleUp T m)).timeText ∧
      (m3.elapsedTime, m3.timeText) =
        (match nows.getLast? with
        | none => (m.elapsedTime, m.timeText)
        | some t => (t - (T - m.elapsedTime), formatTime (t - (T - m.elapsedTime)))) ∧
      (m.elapsedTime = 0 → nows.getLast? = some (T + 1234) → m3.timeText = "1.234") := by
  have hup : handleUp T m =
      { startTimer T m with
        state := TimerState.running, readyCue := false, runningCue := true } := by
    simp [handleUp, h]
  have hint : (handleUp T m).intervals ≠ [] := by simp [hup, startTimer]
  have hlast := ticks_last nows (handleUp T m) hint
  have hstate : (ticks nows (handleUp T m)).state = TimerState.running := by
    rw [(ticks_frame nows _).1, hup]
  have hfields : (handleUp T m).elapsedTime = m.elapsedTime ∧
      (handleUp T m).timeText = m.timeText ∧
      (handleUp T m).startTime = T - m.elapsedTime := by
    simp [hup, startTimer]
  rw [hfields.1, hfields.2.1, hfields.2.2] at hlast
  have hcancel : m.nextTimerId ∉
      clearInterval (ticks nows (handleUp T m)).timer (ticks nows (handleUp T m)).intervals := by
    rw [(ticks_frame nows _).2.2.1, (ticks_frame nows _).2.2.2.1, hup]
    simp [startTimer, clearInterval]
  refine ⟨_, handleDown_running rnd fuel _ hstate, rfl, rfl, hcancel, rfl, rfl, hlast, ?_⟩
  intro he hl
  rw [hl, he] at hlast
  have h2 := congrArg Prod.snd hlast
  simp only at h2
  show (ticks nows (handleUp T m)).timeText = "1.234"
  rw [h2]
  have : T + 1234 - (T - 0) = 1234 := by omega
  rw [this]
  decide

/-- C4 (witness): from a Prepare state, a run entered at `T = 5` with ticks at 15 and 1239. -/
theorem stop_shows_last_tick_witness :
    ∃ m3, handleDown cycleSource 1
        (ticks [15, 1239] (handleUp 5 { stalledMachine with state := TimerState.prepare }))
        = some m3 ∧
      m3.state = TimerState.stopped ∧
      m3.timer = none ∧
      ({ stalledMachine with state := TimerState.prepare } : Machine).nextTimerId
        ∉ m3.intervals ∧
      m3.elapsedTime =
        (ticks [15, 1239]
          (handleUp 5 { stalledMachine with state := TimerState.prepare })).elapsedTime ∧
      m3.timeText =
        (ticks [15, 1239]
          (handleUp 5 { stalledMachine with state := TimerState.prepare })).timeText ∧
      (m3.elapsedTime, m3.timeText) = (1234, formatTime 1234) ∧
      ((0 : Int) = 0 → [(15 : Int), 1239].getLast? = some (5 + 1234) → m3.timeText = "1.234") :=
  stop_shows_last_tick cycleSource 1 { stalledMachine with state := TimerState.prepare } 5
    [15, 1239] rfl

/-- C4 (counterexample): the page loads, `down`, `up` at clock reading 5 (so `T = 5`), one tick
at 1235, `down` at `T + 1234 = 1239`: the display shows `1.230`, not `1.234`. -/
theorem stop_display_stale :
    ∃ m, (init cycleSource 1 plainPage).bind
        (fun m0 => run cycleSource 1 m0
          [(Event.down, 0), (Event.up, 5), (Event.tick, 1235), (Event.down, 5 + 1234)])
        = some m ∧
      m.state = TimerState.stopped ∧ m.timeText = "1.230" ∧ m.timeText ≠ "1.234" :=
  ⟨staleMachine, by decide, rfl, rfl, by decide⟩

/-! ## The invariant of the reachable states -/

theorem handleDown_stopped (rnd : Nat → RandomValue) (fuel : Nat) (m : Machine)
    (h : m.state = TimerState.stopped) :
    handleDown rnd fuel m =
      (generateScramble rnd fuel m.randomCalls).map (fun r =>
        { m with
          elapsedTime := 0
          timeText := formatTime 0
          scrambleText := r.1
          randomCalls := r.2
          state := TimerState.idle
          readyCue := false
          runningCue := false }) := by
  simp only [handleDown, h, resetTimer]
  cases generateScramble rnd fuel m.randomCalls <;> rfl

theorem handleDown_inv {rnd : Nat → RandomValue} {fuel : Nat} {m m1 : Machine}
    (hinv : TimerInv m) (h : handleDown rnd fuel m = some m1) : TimerInv m1 := by
  obtain ⟨h1, h2, h3⟩ := hinv
  cases hs : m.state with
  | idle =>
    simp only [handleDown, hs, Option.some.injEq] at h
    subst h
    have := h2 (by simp [hs])
    exact ⟨by simp, by simpa using this, by simpa using h3 (Or.inl hs)⟩
  | prepare =>
    simp only [handleDown, hs, Option.some.injEq] at h
    subst h
    exact ⟨h1, h2, h3⟩
  | running =>
    rw [handleDown_running rnd fuel m hs, Option.some.injEq] at h
    subst h
    obtain ⟨id, ht, hi⟩ := h1 hs
    exact ⟨by simp, by simp [clearInterval, ht, hi], by simp⟩
  | stopped =>
    rw [handleDown_stopped rnd fuel m hs] at h
    cases hg : generateScramble rnd fuel m.randomCalls with
    | none => simp [hg] at h
    | some r =>
      simp only [hg, Option.map_some', Option.some.injEq] at h
      subst h
      have := h2 (by simp [hs])
      exact ⟨by simp, by simpa using this, by simp⟩

theorem handleUp_inv {now : Int} {m : Machine} (hinv : TimerInv m) : TimerInv (handleUp now m) := by
  obtain ⟨h1, h2, h3⟩ := hinv
  cases hs : m.state with
  | idle =>
    have := h2 (by simp [hs])
    have h0 := h3 (Or.inl hs)
    simp only [handleUp, hs]
    exact ⟨by simp [hs], by simpa using this, by simpa using h0⟩
  | prepare =>
    have := h2 (by simp [hs])
    simp only [handleUp, hs, startTimer]
    exact ⟨by simp [this.2], by simp, by simp⟩
  | running =>
    simp only [handleUp, hs]
    exact ⟨h1, h2, h3⟩
  | stopped =>
    simp only [handleUp, hs]
    exact ⟨h1, h2, h3⟩

theorem tick_inv {now : Int} {m : Machine} (hinv : TimerInv m) : TimerInv (tick now m) := by
  obtain ⟨h1, h2, h3⟩ := hinv
  unfold tick
  split
  · exact ⟨h1, h2, h3⟩
  · rename_i hne
    have hrun : m.state = TimerState.running := by
      by_contra hc
      exact hne (h2 hc).2
    exact ⟨fun _ => by simpa [intervalCallback] using h1 hrun,
      fun hc => absurd hrun (by simpa [intervalCallback] using hc),
      fun hc => by simp [intervalCallback, hrun] at hc⟩

/-- Outside the Running state of a reachable machine no interval is registered, so a tick does
nothing. -/
theorem tick_not_running {now : Int} {m : Machine} (hinv : TimerInv m)
    (h : m.state ≠ TimerState.running) : tick now m = m := by
  simp [tick, (hinv.2.1 h).2]

theorem step_inv {rnd : Nat → RandomValue} {fuel : Nat} {m m1 : Machine} {e : Event} {now : Int}
    (hinv : TimerInv m) (h : step rnd fuel m e now = some m1) : TimerInv m1 := by
  cases e with
  | down => exact handleDown_inv hinv h
  | up =>
    simp only [step, Option.some.injEq] at h
    subst h
    exact handleUp_inv hinv
  | tick =>
    simp only [step, Option.some.injEq] at h
    subst h
    exact tick_inv hinv

theorem run_inv {rnd : Nat → RandomValue} {fuel : Nat} {evs : List (Event × Int)}
    {m m1 : Machine} (hinv : TimerInv m) (h : run rnd fuel m evs = some m1) : TimerInv m1 := by
  induction evs generalizing m with
  | nil =>
    simp only [run, Option.some.injEq] at h
    subst h
    exact hinv
  | cons ev rest ih =>
    obtain ⟨e, now⟩ := ev
    simp only [run] at h
    split at h
    · exact absurd h (by simp)
    · rename_i m2 hstep
      exact ih (step_inv hinv hstep) h

theorem init_inv {rnd : Nat → RandomValue} {fuel : Nat} {page : Page} {m : Machine}
    (h : init rnd fuel page = some m) : TimerInv m := by
  unfold init at h
  split at h
  · exact absurd h (by simp)
  · simp only [Option.some.injEq] at h
    subst h
    exact ⟨by simp, by simp, by simp⟩

theorem reachable_inv {rnd : Nat → RandomValue} {page : Page} {m : Machine}
    (h : Reachable rnd page m) : TimerInv m := by
  obtain ⟨fuel, evs, m0, hinit, hrun⟩ := h
  exact run_inv (init_inv hinit) hrun

theorem run_append (rnd : Nat → RandomValue) (fuel : Nat) (xs ys : List (Event × Int))
    (m : Machine) :
    run rnd fuel m (xs ++ ys) = (run rnd fuel m xs).bind (fun m1 => run rnd fuel m1 ys) := by
  induction xs generalizing m with
  | nil => rfl
  | cons ev rest ih =>
    obtain ⟨e, now⟩ := ev
    simp only [List.cons_append, run]
    cases step rnd fuel m e now with
    | none => rfl
    | some m2 => exact ih m2

theorem run_single (rnd : Nat → RandomValue) (fuel : Nat) (m : Machine) (e : Event) (now : Int) :
    run rnd fuel m [(e, now)] = step rnd fuel m e now := by
  simp only [run]
  cases step rnd fuel m e now <;> rfl

theorem run_ticks (rnd : Nat → RandomValue) (fuel : Nat) (nows : List Int) (m : Machine) :
    run rnd fuel m (nows.map (fun t => (Event.tick, t))) = some (ticks nows m) := by
  induction nows generalizing m with
  | nil => rfl
  | cons t rest ih =>
    simp only [List.map_cons, run, step]
    exact ih (tick t m)

theorem reachable_step {rnd : Nat → RandomValue} {page : Page} {fuel : Nat} {m m1 : Machine}
    {e : Event} {now : Int} (hr : Reachable rnd page m) (h : step rnd fuel m e now = some m1) :
    Reachable rnd page m1 := by
  obtain ⟨fuel0, evs, m0, hinit, hrun⟩ := hr
  refine ⟨fuel0 + fuel, evs ++ [(e, now)], m0, ?_, ?_⟩
  · unfold init at hinit ⊢
    split at hinit
    · exact absurd hinit (by simp)
    · rename_i sc c hg
      rw [generateScramble_mono (Nat.le_add_right fuel0 fuel) hg]
      exact hinit
  · have hmono : ∀ (evs : List (Event × Int)) (a b : Machine) (f1 f2 : Nat), f1 ≤ f2 →
        run rnd f1 a evs = some b → run rnd f2 a evs = some b := by
      intro evs
      induction evs with
      | nil => intro a b f1 f2 _ hab; exact hab
      | cons ev rest ih =>
        intro a b f1 f2 hle hab
        obtain ⟨e1, t1⟩ := ev
        simp only [run] at hab ⊢
        split at hab
        · exact absurd hab (by simp)
        · rename_i a2 hs
          have hs2 : step rnd f2 a e1 t1 = some a2 := by
            cases e1 with
            | down =>
              simp only [step] at hs ⊢
              cases hst : a.state with
              | stopped =>
                rw [handleDown_stopped rnd _ a hst] at hs ⊢
                cases hg : generateScramble rnd f1 a.randomCalls with
                | none => simp [hg] at hs
                | some r =>
                  rw [generateScramble_mono hle hg]
                  simpa [hg] using hs
              | idle => simpa [handleDown, hst] using hs
              | prepare => simpa [handleDown, hst] using hs
              | running => simpa [handleDown, hst] using hs
            | up => exact hs
            | tick => exact hs
          rw [hs2]
          exact ih a2 b f1 f2 hle hab
    rw [run_append, hmono evs m0 m fuel0 (fuel0 + fuel) (Nat.le_add_right _ _) hrun]
    simp only [Option.bind, run]
    have hs2 : step rnd (fuel0 + fuel) m e now = some m1 := by
      have := hmono [(e, now)] m m1 fuel (fuel0 + fuel) (Nat.le_add_left _ _)
        (by rw [run_single]; exact h)
      rwa [run_single] at this
    rw [hs2]

/-- The state that `cycleSource` and `plainPage` start in is reachable. -/
theorem reachable_loaded : Reachable cycleSource plainPage loadedMachine :=
  ⟨1, [], _, by decide, rfl⟩

/-- The Stopped state `staleMachine` is reachable. -/
theorem reachable_stale : Reachable cycleSource plainPage staleMachine :=
  ⟨1, [(Event.down, 0), (Event.up, 5), (Event.tick, 1235), (Event.down, 1239)], loadedMachine,
    by decide, by decide⟩

/-! ## When the elapsed time changes -/

/-- C5: in a reachable machine state an event changes `elapsedTime` only if the state before the
event is Running, except that `down` in Stopped sets it to 0; while Stopped, neither `up` nor a
tick alters `elapsedTime`. -/
theorem elapsed_changes_only_running (rnd : Nat → RandomValue) (page : Page) (m : Machine)
    (hr : Reachable rnd page m) (fuel : Nat) (e : Event) (now : Int) (m1 : Machine)
    (hstep : step rnd fuel m e now = some m1) :
    (m1.elapsedTime ≠ m.elapsedTime →
      m.state = TimerState.running ∨
        (e = Event.down ∧ m.state = TimerState.stopped ∧ m1.elapsedTime = 0)) ∧
    (m.state = TimerState.stopped → e = Event.down → m1.elapsedTime = 0) ∧
    (m.state = TimerState.stopped → e ≠ Event.down → m1.elapsedTime = m.elapsedTime) := by
  have hinv := reachable_inv hr
  cases hs : m.state with
  | running => simp
  | stopped =>
    cases e with
    | down =>
      simp only [step] at hstep
      rw [handleDown_stopped rnd fuel m hs] at hstep
      cases hg : generateScramble rnd fuel m.randomCalls with
      | none => simp [hg] at hstep
      | some r =>
        simp only [hg, Option.map_some', Option.some.injEq] at hstep
        subst hstep
        simp
    | up =>
      simp only [step, Option.some.injEq] at hstep
      subst hstep
      simp [handleUp, hs]
    | tick =>
      simp only [step, Option.some.injEq] at hstep
      subst hstep
      rw [tick_not_running hinv (by simp [hs])]
      simp
  | idle =>
    cases e with
    | down =>
      simp only [step, handleDown, hs, Option.some.injEq] at hstep
      subst hstep
      simp
    | up =>
      simp only [step, Option.some.injEq] at hstep
      subst hstep
      simp [handleUp, hs]
    | tick =>
      simp only [step, Option.some.injEq] at hstep
      subst hstep
      rw [tick_not_running hinv (by simp [hs])]
      simp
  | prepare =>
    cases e with
    | down =>
      simp only [step, handleDown, hs, Option.some.injEq] at hstep
      subst hstep
      simp
    | up =>
      simp only [step, Option.some.injEq] at hstep
      subst hstep
      simp [handleUp, hs, startTimer]
    | tick =>
      simp only [step, Option.some.injEq] at hstep
      subst hstep
      rw [tick_not_running hinv (by simp [hs])]
      simp

/-- C5 (witness): the acknowledging `down` on the reachable Stopped state `staleMachine`, whose
elapsed time is 1230. -/
theorem elapsed_changes_only_running_witness :
    (((0 : Int) ≠ staleMachine.elapsedTime →
      staleMachine.state = TimerState.running ∨
        (Event.down = Event.down ∧ staleMachine.state = TimerState.stopped ∧ (0 : Int) = 0)) ∧
    (staleMachine.state = TimerState.stopped → Event.down = Event.down → (0 : Int) = 0) ∧
    (staleMachine.state = TimerState.stopped → Event.down ≠ Event.down →
      (0 : Int) = staleMachine.elapsedTime)) :=
  elapsed_changes_only_running cycleSource plainPage staleMachine reachable_stale 1 Event.down 7
    { staleMachine with
      elapsedTime := 0
      timeText := "0.000"
      scrambleText := cycleScramble2
      randomCalls := 80
      state := TimerState.idle } (by decide)

/-! ## Sign and growth of the elapsed time -/

/-- One event at a clock reading that is not earlier than the anchor plus the elapsed time keeps
the elapsed time non-negative, keeps the anchor plus the elapsed time at or before the reading,
and does not decrease the elapsed time between two Running states. -/
theorem step_clock {rnd : Nat → RandomValue} {fuel : Nat} {m m1 : Machine} {e : Event} {now : Int}
    (hinv : TimerInv m) (h0 : 0 ≤ m.elapsedTime)
    (hc : m.state = TimerState.running → m.startTime + m.elapsedTime ≤ now)
    (h : step rnd fuel m e now = some m1) :
    0 ≤ m1.elapsedTime ∧
    (m1.state = TimerState.running → m1.startTime + m1.elapsedTime ≤ now) ∧
    (m.state = TimerState.running → m1.state = TimerState.running →
      m.elapsedTime ≤ m1.elapsedTime) := by
  cases e with
  | down =>
    simp only [step] at h
    cases hs : m.state with
    | idle =>
      simp only [handleDown, hs, Option.some.injEq] at h
      subst h
      simpa using h0
    | prepare =>
      simp only [handleDown, hs, Option.some.injEq] at h
      subst h
      simpa [hs] using h0
    | running =>
      rw [handleDown_running rnd fuel m hs, Option.some.injEq] at h
      subst h
      simpa using h0
    | stopped =>
      rw [handleDown_stopped rnd fuel m hs] at h
      cases hg : generateScramble rnd fuel m.randomCalls with
      | none => simp [hg] at h
      | some r =>
        simp only [hg, Option.map_some', Option.some.injEq] at h
        subst h
        simp
  | up =>
    simp only [step, Option.some.injEq] at h
    subst h
    cases hs : m.state with
    | idle => simpa [handleUp, hs] using h0
    | prepare => simpa [handleUp, hs, startTimer] using h0
    | running => simpa [handleUp, hs] using ⟨h0, hc hs⟩
    | stopped => simpa [handleUp, hs] using h0
  | tick =>
    simp only [step, Option.some.injEq] at h
    subst h
    by_cases hs : m.state = TimerState.running
    · obtain ⟨id, -, hi⟩ := hinv.1 hs
      have hle := hc hs
      simp only [tick, hi, intervalCallback]
      refine ⟨?_, fun _ => ?_, fun _ _ => ?_⟩ <;> simp <;> omega
    · rw [tick_not_running hinv hs]
      exact ⟨h0, fun h1 => absurd h1 hs, fun _ _ => le_refl _⟩

/-- Along a run from the initial state with non-decreasing clock readings the elapsed time is
non-negative and, in a Running state, the anchor plus the elapsed time is at most the last clock
reading. -/
theorem run_clock {rnd : Nat → RandomValue} {fuel : Nat} {page : Page} {m0 : Machine}
    (hinit : init rnd fuel page = some m0) (evs : List (Event × Int)) :
    ∀ m, List.Chain' (fun a b : Int => a ≤ b) (evs.map Prod.snd) →
      run rnd fuel m0 evs = some m →
      TimerInv m ∧ 0 ≤ m.elapsedTime ∧
      (m.state = TimerState.running →
        ∃ t ∈ (evs.map Prod.snd).getLast?, m.startTime + m.elapsedTime ≤ t) := by
  induction evs using List.reverseRecOn with
  | nil =>
    intro m _ hrun
    simp only [run, Option.some.injEq] at hrun
    subst hrun
    have hm := init_inv hinit
    unfold init at hinit
    split at hinit
    · exact absurd hinit (by simp)
    · simp only [Option.some.injEq] at hinit
      subst hinit
      exact ⟨hm, by simp, by simp⟩
  | append_singleton xs ev ih =>
    intro m hsorted hrun
    obtain ⟨e, now⟩ := ev
    rw [run_append] at hrun
    cases hx : run rnd fuel m0 xs with
    | none => simp [hx] at hrun
    | some m1 =>
      simp only [hx, Option.bind, run_single] at hrun
      rw [List.map_append, List.chain'_append] at hsorted
      obtain ⟨hs1, -, hs3⟩ := hsorted
      obtain ⟨hinv, h0, hc⟩ := ih m1 hs1 hx
      have hc1 : m1.state = TimerState.running → m1.startTime + m1.elapsedTime ≤ now := by
        intro hr
        obtain ⟨t, ht, hle⟩ := hc hr
        exact le_trans hle (hs3 t ht now (by simp))
      obtain ⟨k0, k1, -⟩ := step_clock hinv h0 hc1 hrun
      refine ⟨step_inv hinv hrun, k0, fun hr => ⟨now, by simp, k1 hr⟩⟩

/-- C6: along every sequence of events from the initial state whose clock readings are
non-decreasing, `elapsedTime` is non-negative in the state reached, and a further event (at a
reading not earlier than the previous ones) between two Running states does not decrease it. -/
theorem elapsed_nonneg_and_monotone (rnd : Nat → RandomValue) (fuel : Nat) (page : Page)
    (m0 : Machine) (evs : List (Event × Int)) (m : Machine)
    (hinit : init rnd fuel page = some m0)
    (hclock : List.Chain' (fun a b : Int => a ≤ b) (evs.map Prod.snd))
    (hrun : run rnd fuel m0 evs = some m) :
    0 ≤ m.elapsedTime ∧
    ∀ (e : Event) (now : Int) (m1 : Machine),
      List.Chain' (fun a b : Int => a ≤ b) (evs.map Prod.snd ++ [now]) →
      step rnd fuel m e now = some m1 →
      m.state = TimerState.running → m1.state = TimerState.running →
      m.elapsedTime ≤ m1.elapsedTime := by
  obtain ⟨hinv, h0, hc⟩ := run_clock hinit evs m hclock hrun
  refine ⟨h0, ?_⟩
  intro e now m1 hsorted hstep hr hr1
  rw [List.chain'_append] at hsorted
  obtain ⟨t, ht, hle⟩ := hc hr
  have hnow : m.startTime + m.elapsedTime ≤ now := le_trans hle (hsorted.2.2 t ht now (by simp))
  exact (step_clock hinv h0 (fun _ => hnow) hstep).2.2 hr hr1

/-- C6 (witness): the run `down`, `up`, tick at readings 0, 5, 1235 from the initial state. -/
theorem elapsed_nonneg_and_monotone_witness :
    0 ≤ runningMachine.elapsedTime ∧
    ∀ (e : Event) (now : Int) (m1 : Machine),
      List.Chain' (fun a b : Int => a ≤ b)
        ([(Event.down, (0 : Int)), (Event.up, 5), (Event.tick, 1235)].map Prod.snd ++ [now]) →
      step cycleSource 1 runningMachine e now = some m1 →
      runningMachine.state = TimerState.running → m1.state = TimerState.running →
      runningMachine.elapsedTime ≤ m1.elapsedTime :=
  elapsed_nonneg_and_monotone cycleSource 1 plainPage loadedMachine
    [(Event.down, 0), (Event.up, 5), (Event.tick, 1235)] runningMachine
    (by decide) (by simp) (by decide)

/-! ## The full cycle -/

/-- C7 (as amended): from every reachable Idle state, for all clock readings and every schedule
of ticks while Running, the events `down`, `up`, ticks, `down` return and pass through Prepare
and Running to Stopped; the final `down` returns exactly when the fresh `generateScramble` call
it makes returns, and then the machine is in Idle with `elapsedTime = 0`, the time display
`0.000`, no tick handle and no registered interval, and the scramble display set to the result
of that call. -/
theorem full_cycle (rnd : Nat → RandomValue) (page : Page) (m : Machine)
    (hr : Reachable rnd page m) (hidle : m.state = TimerState.idle)
    (t1 t2 t3 t4 : Int) (nows : List Int) (fuel : Nat) :
    ∃ m1 m2 m3,
      step rnd fuel m Event.down t1 = some m1 ∧ m1.state = TimerState.prepare ∧
      step rnd fuel m1 Event.up t2 = some m2 ∧ m2.state = TimerState.running ∧
      (ticks nows m2).state = TimerState.running ∧
      step rnd fuel (ticks nows m2) Event.down t3 = some m3 ∧ m3.state = TimerState.stopped ∧
      run rnd fuel m
        ([(Event.down, t1), (Event.up, t2)] ++ nows.map (fun t => (Event.tick, t)) ++
          [(Event.down, t3), (Event.down, t4)]) = step rnd fuel m3 Event.down t4 ∧
      (step rnd fuel m3 Event.down t4 = none ↔
        generateScramble rnd fuel m.randomCalls = none) ∧
      ∀ m4, step rnd fuel m3 Event.down t4 = some m4 →
        m4.state = TimerState.idle ∧ m4.elapsedTime = 0 ∧ m4.timeText = "0.000" ∧
        m4.timer = none ∧ m4.intervals = [] ∧
        generateScramble rnd fuel m.randomCalls = some (m4.scrambleText, m4.randomCalls) := by
  have hinv := reachable_inv hr
  have e1 : step rnd fuel m Event.down t1 =
      some { m with state := TimerState.prepare, readyCue := true } := by
    simp [step, handleDown, hidle]
  have i1 := step_inv hinv e1
  have e2 : step rnd fuel { m with state := TimerState.prepare, readyCue := true } Event.up t2 =
      some (handleUp t2 { m with state := TimerState.prepare, readyCue := true }) := rfl
  have i2 := step_inv i1 e2
  have s2 : (handleUp t2 { m with state := TimerState.prepare, readyCue := true }).state =
      TimerState.running := by simp [handleUp]
  obtain ⟨f1, -, -, -, -, -, -, -, f9⟩ :=
    ticks_frame nows (handleUp t2 { m with state := TimerState.prepare, readyCue := true })
  have s3 := f1.trans s2
  have i3 : TimerInv
      (ticks nows (handleUp t2 { m with state := TimerState.prepare, readyCue := true })) :=
    run_inv i2 (run_ticks rnd fuel nows _)
  obtain ⟨m3, e3, s4, c3⟩ : ∃ m3, handleDown rnd fuel
      (ticks nows (handleUp t2 { m with state := TimerState.prepare, readyCue := true })) = some m3 ∧
      m3.state = TimerState.stopped ∧ m3.randomCalls = m.randomCalls := by
    refine ⟨_, handleDown_running rnd fuel _ s3, rfl, ?_⟩
    show (ticks nows _).randomCalls = m.randomCalls
    rw [f9]
    simp [handleUp, startTimer]
  have i4 := handleDown_inv i3 e3
  have e4 := handleDown_stopped rnd fuel m3 s4
  rw [c3] at e4
  refine ⟨_, _, m3, e1, rfl, e2, s2, s3, e3, s4, ?_, ?_, ?_⟩
  · rw [run_append, run_append]
    simp only [run, e1, e2, run_ticks, Option.bind]
    simp only [step, e3]
    cases handleDown rnd fuel m3 <;> rfl
  · simp only [step]
    rw [e4]
    cases generateScramble rnd fuel m.randomCalls <;> simp
  · intro m4 h4
    simp only [step] at h4
    have i5 := handleDown_inv i4 h4
    rw [e4] at h4
    cases hg : generateScramble rnd fuel m.randomCalls with
    | none => simp [hg] at h4
    | some r =>
      simp only [hg, Option.map_some', Option.some.injEq] at h4
      subst h4
      exact ⟨rfl, rfl, (by decide : formatTime 0 = "0.000"), (i5.2.1 (by simp)).1,
        (i5.2.1 (by simp)).2, rfl⟩

/-- C7 (witness): the cycle from the initial state for `cycleSource`, with ticks at 15 and 25;
the final `down` returns and publishes the scramble generated from the values 40 to 79. -/
theorem full_cycle_witness :
    ∃ m1 m2 m3,
      step cycleSource 1 loadedMachine Event.down 0 = some m1 ∧
      m1.state = TimerState.prepare ∧
      step cycleSource 1 m1 Event.up 5 = some m2 ∧ m2.state = TimerState.running ∧
      (ticks [15, 25] m2).state = TimerState.running ∧
      step cycleSource 1 (ticks [15, 25] m2) Event.down 30 = some m3 ∧
      m3.state = TimerState.stopped ∧
      run cycleSource 1 loadedMachine
        ([(Event.down, 0), (Event.up, 5)] ++ [15, 25].map (fun t => (Event.tick, t)) ++
          [(Event.down, 30), (Event.down, 40)]) = step cycleSource 1 m3 Event.down 40 ∧
      (step cycleSource 1 m3 Event.down 40 = none ↔
        generateScramble cycleSource 1 loadedMachine.randomCalls = none) ∧
      ∀ m4, step cycleSource 1 m3 Event.down 40 = some m4 →
        m4.state = TimerState.idle ∧ m4.elapsedTime = 0 ∧ m4.timeText = "0.000" ∧
        m4.timer = none ∧ m4.intervals = [] ∧
        generateScramble cycleSource 1 loadedMachine.randomCalls =
          some (m4.scrambleText, m4.randomCalls) :=
  full_cycle cycleSource plainPage loadedMachine reachable_loaded rfl 0 5 30 40 [15, 25] 1

/-- C7 (counterexample): with the source `stallSource` the page loads into the Idle state
`loadedMachine`, and the cycle `down`, `up`, `down`, `down` from it returns under no budget: the
last `down` calls `generateScramble` where the source keeps selecting `U`. -/
theorem full_cycle_stalls :
    init stallSource 1 plainPage = some loadedMachine ∧
    loadedMachine.state = TimerState.idle ∧
    run stallSource 1 loadedMachine [(Event.down, 0), (Event.up, 5), (Event.down, 1239)] =
      some { staleMachine with elapsedTime := 0, timeText := "0.000" } ∧
    ∀ fuel, run stallSource fuel loadedMachine
      [(Event.down, 0), (Event.up, 5), (Event.down, 1239), (Event.down, 1300)] = none := by
  refine ⟨by decide, rfl, by decide, ?_⟩
  intro fuel
  have h := @generateScramble_stuck stallSource "U" 40
    (fun k hk => pick_faces_stallSource hk) fuel
  have e : run stallSource fuel loadedMachine
      [(Event.down, 0), (Event.up, 5), (Event.down, 1239)] =
      some { staleMachine with elapsedTime := 0, timeText := "0.000" } := rfl
  rw [show [(Event.down, (0 : Int)), (Event.up, 5), (Event.down, 1239), (Event.down, 1300)] =
      [(Event.down, 0), (Event.up, 5), (Event.down, 1239)] ++ [(Event.down, 1300)] from rfl,
    run_append, e]
  have hd : handleDown stallSource fuel
      { staleMachine with elapsedTime := 0, timeText := "0.000" } = none := by
    rw [handleDown_stopped stallSource fuel _ rfl]
    show Option.map _ (generateScramble stallSource fuel 40) = none
    rw [h]
    rfl
  simp only [Option.bind, run, step, hd]

/-! ## Repeated `down`, stray `up` -/

/-- C8: `handleDown` leaves a machine whose state is Prepare unchanged in every component, so
from an Idle state `down` followed by any number of further `down`s ends in the same machine
state as the single `down`. -/
theorem down_ignored_in_prepare (rnd : Nat → RandomValue) (fuel : Nat) (m : Machine) :
    (m.state = TimerState.prepare → handleDown rnd fuel m = some m) ∧
    (m.state = TimerState.idle →
      ∃ m1, handleDown rnd fuel m = some m1 ∧
        ∀ (t : Int) (ts : List Int),
          run rnd fuel m ((Event.down, t) :: ts.map (fun u => (Event.down, u))) = some m1) := by
  have hp : ∀ a : Machine, a.state = TimerState.prepare → handleDown rnd fuel a = some a := by
    intro a ha
    simp [handleDown, ha]
  refine ⟨hp m, fun hi => ⟨{ m with state := TimerState.prepare, readyCue := true }, ?_, ?_⟩⟩
  · simp [handleDown, hi]
  · intro t ts
    have h1 : step rnd fuel m Event.down t =
        some { m with state := TimerState.prepare, readyCue := true } := by
      simp [step, handleDown, hi]
    have h2 := hp { m with state := TimerState.prepare, readyCue := true } rfl
    simp only [run, h1]
    induction ts with
    | nil => rfl
    | cons u rest ih =>
      simp only [List.map_cons, run, step, h2]
      exact ih

/-- C8 (witness): a Prepare machine that carries the `ready` cue is returned unchanged, and from
the initial state for `cycleSource` repeated `down`s end where the single `down` does. -/
theorem down_ignored_in_prepare_witness :
    handleDown cycleSource 1 { loadedMachine with state := TimerState.prepare, readyCue := true }
      = some { loadedMachine with state := TimerState.prepare, readyCue := true } ∧
    ∃ m1, handleDown cycleSource 1 loadedMachine = some m1 ∧
      ∀ (t : Int) (ts : List Int),
        run cycleSource 1 loadedMachine ((Event.down, t) :: ts.map (fun u => (Event.down, u)))
          = some m1 :=
  ⟨(down_ignored_in_prepare cycleSource 1
      { loadedMachine with state := TimerState.prepare, readyCue := true }).1 rfl,
    (down_ignored_in_prepare cycleSource 1 loadedMachine).2 rfl⟩

/-- C9: on a machine whose state is Idle, Stopped or Running, `handleUp` changes nothing except
that in Idle it removes the `ready` cue: the state, `elapsedTime`, `startTime`, the tick handle,
the registered intervals, both displays and the `running` cue are as before. -/
theorem up_frame (now : Int) (m : Machine) (h : m.state ≠ TimerState.prepare) :
    handleUp now m = (if m.state = TimerState.idle then { m with readyCue := false } else m) ∧
    (handleUp now m).state = m.state ∧ (handleUp now m).elapsedTime = m.elapsedTime ∧
    (handleUp now m).startTime = m.startTime ∧ (handleUp now m).timer = m.timer ∧
    (handleUp now m).intervals = m.intervals ∧ (handleUp now m).timeText = m.timeText ∧
    (handleUp now m).scrambleText = m.scrambleText ∧
    (handleUp now m).runningCue = m.runningCue ∧
    (m.state ≠ TimerState.idle → (handleUp now m).readyCue = m.readyCue) := by
  cases hs : m.state with
  | prepare => exact absurd hs h
  | idle => simp [handleUp, hs]
  | running => simp [handleUp, hs]
  | stopped => simp [handleUp, hs]

/-- C9 (witness): `up` on an Idle machine that carries the `ready` cue. -/
theorem up_frame_witness :
    handleUp 3 { loadedMachine with readyCue := true } =
      (if ({ loadedMachine with readyCue := true } : Machine).state = TimerState.idle then
        { ({ loadedMachine with readyCue := true } : Machine) with readyCue := false }
      else { loadedMachine with readyCue := true }) ∧
    (handleUp 3 { loadedMachine with readyCue := true }).readyCue = false :=
  ⟨(up_frame 3 { loadedMachine with readyCue := true } (by decide)).1, rfl⟩

/-! ## Termination of the scramble generator -/

/-- The rejection loop returns within `n` draws as soon as one of the next `n` values selects a
face other than `lastFace`. -/
theorem drawFace_returns {rnd : Nat → RandomValue} {lastFace : Option String} (n : Nat) :
    ∀ calls, (∃ j, j < n ∧ some (pick faces (by decide) (rnd (calls + j))) ≠ lastFace) →
      ∃ face calls1, drawFace rnd lastFace n calls = some (face, calls1) := by
  induction n with
  | zero =>
    intro calls h
    obtain ⟨j, hj, -⟩ := h
    exact absurd hj (Nat.not_lt_zero j)
  | succ n ih =>
    intro calls h
    simp only [drawFace]
    split
    · rename_i heq
      obtain ⟨j, hj, hne⟩ := h
      cases j with
      | zero => exact absurd heq hne
      | succ i =>
        apply ih (calls + 1)
        refine ⟨i, by omega, ?_⟩
        rwa [show calls + 1 + i = calls + (i + 1) by omega]
    · exact ⟨_, _, rfl⟩

/-- The condition under which the budget `B` suffices: every window of `B` consecutive values of
the source holds a value that selects a face other than the one selected by the window's first
value. -/
theorem drawFace_returns_of_varied {rnd : Nat → RandomValue} {B : Nat}
    (h : ∀ k, ∃ j, j < B ∧
      pick faces (by decide) (rnd (k + j)) ≠ pick faces (by decide) (rnd k))
    (lastFace : Option String) (calls : Nat) :
    ∃ face calls1, drawFace rnd lastFace B calls = some (face, calls1) := by
  apply drawFace_returns
  obtain ⟨j, hj, hne⟩ := h calls
  by_cases h0 : some (pick faces (by decide) (rnd calls)) = lastFace
  · refine ⟨j, hj, ?_⟩
    rw [← h0]
    simpa using hne
  · exact ⟨0, by omega, h0⟩

theorem scrambleLoop_returns {rnd : Nat → RandomValue} {B : Nat}
    (h : ∀ k, ∃ j, j < B ∧
      pick faces (by decide) (rnd (k + j)) ≠ pick faces (by decide) (rnd k))
    (remaining : Nat) :
    ∀ scramble lastFace calls,
      ∃ res calls1, scrambleLoop rnd B remaining scramble lastFace calls = some (res, calls1) := by
  induction remaining with
  | zero => intro scramble lastFace calls; exact ⟨_, _, rfl⟩
  | succ n ih =>
    intro scramble lastFace calls
    obtain ⟨face, c1, hd⟩ := drawFace_returns_of_varied h lastFace calls
    simp only [scrambleLoop, hd]
    exact ih _ _ _

theorem pick_faces_cycleSource_succ (k : Nat) :
    pick faces (by decide) (cycleSource (k + 1)) ≠ pick faces (by decide) (cycleSource k) := by
  have hcases : ∀ i j : Nat, i < 6 → j < 6 → j = (i + 1) % 6 →
      pick faces (by decide) ⟨cycleMant j, 3, by unfold cycleMant; split_ifs <;> decide,
          by unfold cycleMant; split_ifs <;> decide, by decide⟩ ≠
        pick faces (by decide) ⟨cycleMant i, 3, by unfold cycleMant; split_ifs <;> decide,
          by unfold cycleMant; split_ifs <;> decide, by decide⟩ := by
    intro i j hi hj hij
    interval_cases i <;> subst hij <;> decide
  exact hcases (k % 6) ((k + 1) % 6) (Nat.mod_lt _ (by decide)) (Nat.mod_lt _ (by decide))
    (by omega)

/-- A sufficient condition on the source alone: when each window of `B` consecutive values holds
a value selecting a face other than the one selected by the window's first value, every run of
the rejection loop returns within `B` draws, `generateScramble` returns under the budget `B` (and
under every larger one, with the same result), and it consumes at most `20 * (B + 1)` random
values. -/
theorem generateScramble_returns (rnd : Nat → RandomValue) (B : Nat)
    (h : ∀ k, ∃ j, j < B ∧
      pick faces (by decide) (rnd (k + j)) ≠ pick faces (by decide) (rnd k))
    (calls : Nat) :
    (∀ lastFace c, ∃ face c1, drawFace rnd lastFace B c = some (face, c1) ∧ c1 ≤ c + B) ∧
    ∃ s calls1, generateScramble rnd B calls = some (s, calls1) ∧
      calls1 ≤ calls + 20 * (B + 1) ∧
      ∀ fuel, B ≤ fuel → generateScramble rnd fuel calls = some (s, calls1) := by
  constructor
  · intro lastFace c
    obtain ⟨face, c1, hd⟩ := drawFace_returns_of_varied h lastFace c
    exact ⟨face, c1, hd, (drawFace_some hd).2.2.2⟩
  · obtain ⟨res, c1, hl⟩ := scrambleLoop_returns h scrambleLength [] none calls
    have hg : generateScramble rnd B calls = some ("  ".intercalate res, c1) := by
      simp [generateScramble, scrambleMoves, hl]
    refine ⟨_, c1, hg, ?_, fun fuel hle => generateScramble_mono hle hg⟩
    have := (scrambleLoop_spec scrambleInv_nil hl).2.2.2.2
    simpa [scrambleLength] using this

/-- In `cycleSource` consecutive values select different faces, so the budget 2 suffices. -/
theorem generateScramble_returns_witness :
    (∀ lastFace c, ∃ face c1, drawFace cycleSource lastFace 2 c = some (face, c1) ∧ c1 ≤ c + 2) ∧
    ∃ s calls1, generateScramble cycleSource 2 0 = some (s, calls1) ∧
      calls1 ≤ 0 + 20 * (2 + 1) ∧
      ∀ fuel, 2 ≤ fuel → generateScramble cycleSource fuel 0 = some (s, calls1) :=
  generateScramble_returns cycleSource 2
    (fun k => ⟨1, by decide, pick_faces_cycleSource_succ k⟩) 0

/-- The rejection loop returns the first drawn face that differs from `lastFace`. -/
theorem drawFace_first {rnd : Nat → RandomValue} {lastFace : Option String} {fuel calls : Nat}
    {face : String} {calls1 : Nat} (h : drawFace rnd lastFace fuel calls = some (face, calls1)) :
    calls < calls1 ∧ face = pick faces (by decide) (rnd (calls1 - 1)) ∧ some face ≠ lastFace ∧
    ∀ k, calls ≤ k → k + 1 < calls1 → some (pick faces (by decide) (rnd k)) = lastFace := by
  induction fuel generalizing calls with
  | zero => simp [drawFace] at h
  | succ n ih =>
    simp only [drawFace] at h
    split at h
    · rename_i heq
      obtain ⟨h1, h2, h3, h4⟩ := ih h
      refine ⟨by omega, h2, h3, ?_⟩
      intro k hk1 hk2
      rcases Nat.eq_or_lt_of_le hk1 with hk | hk
      · rw [← hk]
        exact heq
      · exact h4 k hk hk2
    · rename_i hne
      simp only [Option.some.injEq, Prod.mk.injEq] at h
      obtain ⟨rfl, rfl⟩ := h
      exact ⟨by omega, by simp, hne, fun k hk1 hk2 => by omega⟩

/-- A run of the rejection loop returns, under some budget, exactly when some value from index
`calls` on selects a face other than `lastFace`. -/
theorem drawFace_returns_iff (rnd : Nat → RandomValue) (lastFace : Option String) (calls : Nat) :
    (∃ fuel face calls1, drawFace rnd lastFace fuel calls = some (face, calls1)) ↔
      ∃ k, calls ≤ k ∧ some (pick faces (by decide) (rnd k)) ≠ lastFace := by
  constructor
  · rintro ⟨fuel, face, calls1, h⟩
    obtain ⟨h1, h2, h3, -⟩ := drawFace_first h
    exact ⟨calls1 - 1, by omega, by rw [← h2]; exact h3⟩
  · rintro ⟨k, hk, hne⟩
    obtain ⟨face, calls1, h⟩ := drawFace_returns (k - calls + 1) calls
      ⟨k - calls, by omega, by rwa [show calls + (k - calls) = k by omega]⟩
    exact ⟨_, face, calls1, h⟩

/-- The outcome of a returning run of the rejection loop does not depend on the budget. -/
theorem drawFace_unique {rnd : Nat → RandomValue} {lastFace : Option String}
    {fuel1 fuel2 calls : Nat} {r1 r2 : String × Nat}
    (h1 : drawFace rnd lastFace fuel1 calls = some r1)
    (h2 : drawFace rnd lastFace fuel2 calls = some r2) : r1 = r2 := by
  have e1 := drawFace_mono (Nat.le_max_left fuel1 fuel2) h1
  have e2 := drawFace_mono (Nat.le_max_right fuel1 fuel2) h2
  rw [e1] at e2
  exact Option.some.inj e2

/-- The `for` loop returns, under some budget, exactly when none of its runs of the rejection
loop goes on forever. -/
theorem scrambleLoop_returns_iff (rnd : Nat → RandomValue) (remaining : Nat) :
    ∀ scramble lastFace calls,
      (∃ fuel r, scrambleLoop rnd fuel remaining scramble lastFace calls = some r) ↔
        ¬ LoopStalls rnd remaining lastFace calls := by
  induction remaining with
  | zero =>
    intro scramble lastFace calls
    simp [LoopStalls, scrambleLoop]
  | succ n ih =>
    intro scramble lastFace calls
    constructor
    · rintro ⟨fuel, r, h⟩
      simp only [scrambleLoop] at h
      split at h
      · exact absurd h (by simp)
      · rename_i face c1 hd
        rintro (hstall | ⟨fuel2, face2, c2, hd2, hs2⟩)
        · obtain ⟨-, h2, h3, -⟩ := drawFace_first hd
          exact h3 (by rw [h2]; exact hstall (c1 - 1) (by have := (drawFace_first hd).1; omega))
        · have hu := drawFace_unique hd hd2
          simp only [Prod.mk.injEq] at hu
          obtain ⟨rfl, rfl⟩ := hu
          exact (ih _ _ _).1 ⟨fuel, r, h⟩ hs2
    · intro hns
      have hk : ∃ k, calls ≤ k ∧ some (pick faces (by decide) (rnd k)) ≠ lastFace := by
        by_contra hc
        apply hns
        left
        intro k hk
        by_contra hne
        exact hc ⟨k, hk, hne⟩
      obtain ⟨fuel1, face, c1, hd⟩ := (drawFace_returns_iff rnd lastFace calls).2 hk
      have hrest : ¬ LoopStalls rnd n (some face) (c1 + 1) :=
        fun hs => hns (Or.inr ⟨fuel1, face, c1, hd, hs⟩)
      obtain ⟨fuel2, r, h2⟩ := (ih (scramble ++ [face ++ pick modifiers (by decide) (rnd c1)])
        (some face) (c1 + 1)).2 hrest
      refine ⟨max fuel1 fuel2, r, ?_⟩
      simp only [scrambleLoop, drawFace_mono (Nat.le_max_left fuel1 fuel2) hd]
      exact scrambleLoop_mono (Nat.le_max_right fuel1 fuel2) h2

/-- C10 (as amended): for every random source, `generateScramble` terminates and returns a
scramble exactly when none of its runs of the face-rejection loop draws the previous face
forever, and it never returns otherwise; a run of the loop returns exactly when some later value
selects a face other than the previous one, and it then stops at the first such draw, so the
number of draws of a run is finite but has no bound that holds for all sources. -/
theorem generateScramble_returns_iff (rnd : Nat → RandomValue) (calls : Nat) :
    ((∃ fuel s calls1, generateScramble rnd fuel calls = some (s, calls1)) ↔
      ¬ LoopStalls rnd scrambleLength none calls) ∧
    ((∀ fuel, generateScramble rnd fuel calls = none) ↔
      LoopStalls rnd scrambleLength none calls) ∧
    (∀ lastFace c,
      (∃ fuel face c1, drawFace rnd lastFace fuel c = some (face, c1)) ↔
        ∃ k, c ≤ k ∧ some (pick faces (by decide) (rnd k)) ≠ lastFace) ∧
    (∀ lastFace fuel c face c1, drawFace rnd lastFace fuel c = some (face, c1) →
      c < c1 ∧ face = pick faces (by decide) (rnd (c1 - 1)) ∧ some face ≠ lastFace ∧
      ∀ k, c ≤ k → k + 1 < c1 → some (pick faces (by decide) (rnd k)) = lastFace) := by
  have hiff : (∃ fuel s calls1, generateScramble rnd fuel calls = some (s, calls1)) ↔
      ¬ LoopStalls rnd scrambleLength none calls := by
    rw [← scrambleLoop_returns_iff rnd scrambleLength [] none calls]
    constructor
    · rintro ⟨fuel, s, c1, h⟩
      unfold generateScramble scrambleMoves at h
      split at h
      · exact absurd h (by simp)
      · rename_i ms c2 hm
        exact ⟨fuel, _, hm⟩
    · rintro ⟨fuel, ⟨ms, c1⟩, h⟩
      exact ⟨fuel, "  ".intercalate ms, c1, by simp [generateScramble, scrambleMoves, h]⟩
  refine ⟨hiff, ?_, drawFace_returns_iff rnd, fun lastFace fuel c face c1 h => drawFace_first h⟩
  constructor
  · intro hnone
    by_contra hns
    obtain ⟨fuel, s, c1, h⟩ := hiff.2 hns
    rw [hnone fuel] at h
    exact absurd h (by simp)
  · intro hs fuel
    cases hg : generateScramble rnd fuel calls with
    | none => rfl
    | some r => exact absurd hs (hiff.1 ⟨fuel, r.1, r.2, hg⟩)

/-- C10 (witness): with `stallSource` the call made when the page loads returns, although the
source selects `U` forever from its value 40 on; the call made at position 40 never returns. -/
theorem generateScramble_returns_iff_witness :
    ¬ LoopStalls stallSource scrambleLength none 0 ∧
    LoopStalls stallSource scrambleLength none 40 :=
  ⟨((generateScramble_returns_iff stallSource 0).1).1 ⟨1, cycleScramble, 40, by decide⟩,
    ((generateScramble_returns_iff stallSource 40).2.1).1
      (@generateScramble_stuck stallSource "U" 40 (fun k hk => pick_faces_stallSource hk))⟩

/-- C10 (counterexample): on the source that always yields 0 every draw selects the face `U`,
and `generateScramble` returns under no budget, from whatever point of the source it starts. -/
theorem generateScramble_zeroSource_diverges :
    (∀ k, pick faces (by decide) (zeroSource k) = "U") ∧
    (∀ fuel calls, generateScramble zeroSource fuel calls = none) :=
  ⟨pick_faces_zeroSource, fun fuel calls => @generateScramble_stuck zeroSource "U" calls
    (fun k _ => pick_faces_zeroSource k) fuel⟩

/-! ## Frame of the scramble display -/

/-- What `down` does outside the Stopped state: the scramble display and the position in the random
source are untouched. -/
theorem handleDown_not_stopped (rnd : Nat → RandomValue) (fuel : Nat) (m : Machine)
    (h : m.state ≠ TimerState.stopped) :
    ∃ m1, handleDown rnd fuel m = some m1 ∧ m1.scrambleText = m.scrambleText ∧
      m1.randomCalls = m.randomCalls ∧ m1.elapsedTime = m.elapsedTime ∧
      m1.timeText = m.timeText := by
  cases hs : m.state with
  | stopped => exact absurd hs h
  | idle =>
    exact ⟨{ m with state := TimerState.prepare, readyCue := true },
      by simp [handleDown, hs], rfl, rfl, rfl, rfl⟩
  | prepare => exact ⟨m, by simp [handleDown, hs], rfl, rfl, rfl, rfl⟩
  | running => exact ⟨_, handleDown_running rnd fuel m hs, rfl, rfl, rfl, rfl⟩

/-- `up` never touches the displays, the elapsed time or the random source. -/
theorem handleUp_frame (now : Int) (m : Machine) :
    (handleUp now m).scrambleText = m.scrambleText ∧
    (handleUp now m).randomCalls = m.randomCalls ∧
    (handleUp now m).elapsedTime = m.elapsedTime ∧
    (handleUp now m).timeText = m.timeText := by
  cases hs : m.state <;> simp [handleUp, hs, startTimer]

/-- C12: every event other than `down` while Stopped (`down` in Idle, Prepare or Running, `up`,
a tick) returns and leaves the scramble display and the position in the random source as they
were; `down` while Stopped sets the scramble display to the result of one `generateScramble`
call made at the current position of the random source. -/
theorem scramble_replaced_only_on_reset (rnd : Nat → RandomValue) (fuel : Nat) (m : Machine)
    (e : Event) (now : Int) :
    (¬ (e = Event.down ∧ m.state = TimerState.stopped) →
      ∃ m1, step rnd fuel m e now = some m1 ∧ m1.scrambleText = m.scrambleText ∧
        m1.randomCalls = m.randomCalls) ∧
    (e = Event.down → m.state = TimerState.stopped →
      ∀ s calls1, generateScramble rnd fuel m.randomCalls = some (s, calls1) →
        ∃ m1, step rnd fuel m e now = some m1 ∧ m1.scrambleText = s ∧
          m1.randomCalls = calls1) := by
  constructor
  · intro hne
    cases e with
    | down =>
      obtain ⟨m1, h1, h2, h3, -, -⟩ :=
        handleDown_not_stopped rnd fuel m (fun hs => hne ⟨rfl, hs⟩)
      exact ⟨m1, h1, h2, h3⟩
    | up => exact ⟨_, rfl, (handleUp_frame now m).1, (handleUp_frame now m).2.1⟩
    | tick =>
      obtain ⟨-, -, -, -, -, -, h7, -, h9⟩ := tick_frame now m
      exact ⟨_, rfl, h7, h9⟩
  · intro he hs s calls1 hgen
    subst he
    simp only [step]
    rw [handleDown_stopped rnd fuel m hs, hgen]
    exact ⟨_, rfl, rfl, rfl⟩

/-- C12 (witness): the acknowledging `down` on `staleMachine` publishes the scramble generated
from the values 40 to 79 of `cycleSource`. -/
theorem scramble_replaced_only_on_reset_witness :
    ∃ m1, step cycleSource 1 staleMachine Event.down 7 = some m1 ∧
      m1.scrambleText = cycleScramble2 ∧ m1.randomCalls = 80 :=
  (scramble_replaced_only_on_reset cycleSource 1 staleMachine Event.down 7).2 rfl rfl
    cycleScramble2 80 (by decide)

/-! ## The tick handle -/

/-- C13: in every reachable state the tick handle is set, and an interval is registered, exactly
when the state is Running (then the one registered interval is the one the handle names); `up`
in Prepare creates it, `down` while Running cancels it; and outside Running a tick changes
nothing. -/
theorem tick_handle_paired (rnd : Nat → RandomValue) (page : Page) (m : Machine)
    (hr : Reachable rnd page m) :
    (m.timer.isSome = true ↔ m.state = TimerState.running) ∧
    (m.intervals ≠ [] ↔ m.state = TimerState.running) ∧
    (m.state = TimerState.running → ∃ id, m.timer = some id ∧ m.intervals = [id]) ∧
    (m.state = TimerState.prepare →
      ∀ now, (handleUp now m).state = TimerState.running ∧
        (handleUp now m).timer = some m.nextTimerId ∧
        (handleUp now m).intervals = [m.nextTimerId]) ∧
    (m.state = TimerState.running →
      ∀ fuel, ∃ m1, handleDown rnd fuel m = some m1 ∧ m1.state = TimerState.stopped ∧
        m1.timer = none ∧ m1.intervals = []) ∧
    (m.state ≠ TimerState.running → ∀ now, tick now m = m) := by
  have hinv := reachable_inv hr
  have h1 := hinv.1
  have h2 := hinv.2.1
  refine ⟨?_, ?_, h1, ?_, ?_, fun hs now => tick_not_running hinv hs⟩
  · constructor
    · intro ht
      by_contra hs
      rw [(h2 hs).1] at ht
      exact absurd ht (by simp)
    · intro hs
      obtain ⟨id, ht, -⟩ := h1 hs
      simp [ht]
  · constructor
    · intro hi
      by_contra hs
      exact hi (h2 hs).2
    · intro hs
      obtain ⟨id, -, hi⟩ := h1 hs
      simp [hi]
  · intro hs now
    have hi := (h2 (by simp [hs])).2
    simp [handleUp, hs, startTimer, hi]
  · intro hs fuel
    obtain ⟨id, ht, hi⟩ := h1 hs
    refine ⟨_, handleDown_running rnd fuel m hs, rfl, rfl, ?_⟩
    simp [clearInterval, ht, hi]

/-- The Running state `runningMachine` is reachable. -/
theorem reachable_running : Reachable cycleSource plainPage runningMachine :=
  ⟨1, [(Event.down, 0), (Event.up, 5), (Event.tick, 1235)], loadedMachine,
    by decide, by decide⟩

/-- C13 (witness): the reachable Running state `runningMachine`. -/
theorem tick_handle_paired_witness :
    (runningMachine.timer.isSome = true ↔ runningMachine.state = TimerState.running) ∧
    (runningMachine.intervals ≠ [] ↔ runningMachine.state = TimerState.running) ∧
    (runningMachine.state = TimerState.running →
      ∃ id, runningMachine.timer = some id ∧ runningMachine.intervals = [id]) ∧
    (runningMachine.state = TimerState.prepare →
      ∀ now, (handleUp now runningMachine).state = TimerState.running ∧
        (handleUp now runningMachine).timer = some runningMachine.nextTimerId ∧
        (handleUp now runningMachine).intervals = [runningMachine.nextTimerId]) ∧
    (runningMachine.state = TimerState.running →
      ∀ fuel, ∃ m1, handleDown cycleSource fuel runningMachine = some m1 ∧
        m1.state = TimerState.stopped ∧ m1.timer = none ∧ m1.intervals = []) ∧
    (runningMachine.state ≠ TimerState.running → ∀ now, tick now runningMachine = runningMachine) :=
  tick_handle_paired cycleSource plainPage runningMachine reachable_running

/-! ## Starting the timer, ticking -/

/-- C14: on a machine whose state is Prepare, `handleUp` at clock reading `now` sets `startTime`
to `now - elapsedTime`, registers a new interval and stores its id in `timer`, sets the state to
Running, removes the `ready` cue and adds the `running` cue, and leaves `elapsedTime`, the time
display and the scramble display unchanged. -/
theorem up_in_prepare (now : Int) (m : Machine) (h : m.state = TimerState.prepare) :
    handleUp now m =
      { m with
        startTime := now - m.elapsedTime
        timer := some m.nextTimerId
        intervals := m.nextTimerId :: m.intervals
        nextTimerId := m.nextTimerId + 1
        state := TimerState.running
        readyCue := false
        runningCue := true } ∧
    (handleUp now m).startTime = now - m.elapsedTime ∧
    (handleUp now m).timer = some m.nextTimerId ∧
    (handleUp now m).intervals = m.nextTimerId :: m.intervals ∧
    (handleUp now m).state = TimerState.running ∧
    (handleUp now m).readyCue = false ∧ (handleUp now m).runningCue = true ∧
    (handleUp now m).elapsedTime = m.elapsedTime ∧
    (handleUp now m).timeText = m.timeText ∧
    (handleUp now m).scrambleText = m.scrambleText := by
  simp [handleUp, h, startTimer]

/-- C14 (witness): `up` at clock reading 5 after `down` on the initial state. -/
theorem up_in_prepare_witness :
    (handleUp 5 { loadedMachine with state := TimerState.prepare, readyCue := true }).startTime
      = 5 ∧
    (handleUp 5 { loadedMachine with state := TimerState.prepare, readyCue := true }).timer
      = some 1 ∧
    (handleUp 5 { loadedMachine with state := TimerState.prepare, readyCue := true }).state
      = TimerState.running :=
  ⟨(up_in_prepare 5 { loadedMachine with state := TimerState.prepare, readyCue := true }
      rfl).2.1,
    rfl, rfl⟩

/-- C15: a tick fired while Running (in a reachable state) at clock reading `now` runs the
interval callback, which sets `elapsedTime` to `now - startTime` and the time display to
`formatTime` of that value and changes nothing else. -/
theorem tick_effect (rnd : Nat → RandomValue) (page : Page) (m : Machine)
    (hr : Reachable rnd page m) (h : m.state = TimerState.running) (now : Int) :
    tick now m = intervalCallback now m ∧
    tick now m =
      { m with elapsedTime := now - m.startTime, timeText := formatTime (now - m.startTime) } ∧
    (tick now m).state = m.state ∧ (tick now m).startTime = m.startTime ∧
    (tick now m).timer = m.timer ∧ (tick now m).intervals = m.intervals ∧
    (tick now m).readyCue = m.readyCue ∧ (tick now m).runningCue = m.runningCue ∧
    (tick now m).scrambleText = m.scrambleText := by
  obtain ⟨id, -, hi⟩ := (reachable_inv hr).1 h
  have ht : tick now m = intervalCallback now m := by simp [tick, hi]
  obtain ⟨f1, f2, f3, f4, f5, f6, f7, -, -⟩ := tick_frame now m
  exact ⟨ht, ht, f1, f2, f3, f4, f5, f6, f7⟩

/-- C15 (witness): a tick at clock reading 2005 on `runningMachine`, whose `startTime` is 5. -/
theorem tick_effect_witness :
    (tick 2005 runningMachine).elapsedTime = 2000 ∧
    (tick 2005 runningMachine).timeText = "2.000" :=
  have h := (tick_effect cycleSource plainPage runningMachine reachable_running rfl 2005).2.1
  ⟨by rw [h]; rfl, by rw [h]; decide⟩

/-! ## The visual cue -/

theorem step_cue {rnd : Nat → RandomValue} {fuel : Nat} {m m1 : Machine} {e : Event} {now : Int}
    (hinv : CueInv m) (h : step rnd fuel m e now = some m1) : CueInv m1 := by
  obtain ⟨h1, h2⟩ := hinv
  cases e with
  | down =>
    simp only [step] at h
    cases hs : m.state with
    | idle =>
      simp only [handleDown, hs, Option.some.injEq] at h
      subst h
      simpa [CueInv, hs] using h2
    | prepare =>
      simp only [handleDown, hs, Option.some.injEq] at h
      subst h
      exact ⟨h1, h2⟩
    | running =>
      rw [handleDown_running rnd fuel m hs, Option.some.injEq] at h
      subst h
      simpa [CueInv, hs] using h1
    | stopped =>
      rw [handleDown_stopped rnd fuel m hs] at h
      cases hg : generateScramble rnd fuel m.randomCalls with
      | none => simp [hg] at h
      | some r =>
        simp only [hg, Option.map_some', Option.some.injEq] at h
        subst h
        simp [CueInv]
  | up =>
    simp only [step, Option.some.injEq] at h
    subst h
    cases hs : m.state with
    | idle => simpa [CueInv, handleUp, hs] using h2
    | prepare => simp [CueInv, handleUp, hs, startTimer]
    | running => simpa [CueInv, handleUp, hs] using And.intro h1 h2
    | stopped => simpa [CueInv, handleUp, hs] using And.intro h1 h2
  | tick =>
    simp only [step, Option.some.injEq] at h
    subst h
    obtain ⟨f1, -, -, -, f5, f6, -⟩ := tick_frame now m
    simpa [CueInv, f1, f5, f6] using And.intro h1 h2

theorem run_cue {rnd : Nat → RandomValue} {fuel : Nat} {evs : List (Event × Int)}
    {m m1 : Machine} (hinv : CueInv m) (h : run rnd fuel m evs = some m1) : CueInv m1 := by
  induction evs generalizing m with
  | nil =>
    simp only [run, Option.some.injEq] at h
    subst h
    exact hinv
  | cons ev rest ih =>
    obtain ⟨e, now⟩ := ev
    simp only [run] at h
    split at h
    · exact absurd h (by simp)
    · rename_i m2 hstep
      exact ih (step_cue hinv hstep) h

theorem init_cue {rnd : Nat → RandomValue} {fuel : Nat} {page : Page} {m : Machine}
    (hp1 : page.readyCue = false) (hp2 : page.runningCue = false)
    (h : init rnd fuel page = some m) : CueInv m := by
  unfold init at h
  split at h
  · exact absurd h (by simp)
  · simp only [Option.some.injEq] at h
    subst h
    simp [CueInv, hp1, hp2]

/-- C16: when the page starts with no cue set, in every reachable state the `ready` cue is set
exactly when the state is Prepare and the `running` cue exactly when the state is Running; so
`up` while Idle, which clears the `ready` cue, leaves a reachable machine as it is. -/
theorem cue_function_of_state (rnd : Nat → RandomValue) (page : Page) (m : Machine)
    (hp1 : page.readyCue = false) (hp2 : page.runningCue = false)
    (hr : Reachable rnd page m) :
    (m.readyCue = true ↔ m.state = TimerState.prepare) ∧
    (m.runningCue = true ↔ m.state = TimerState.running) ∧
    (m.state = TimerState.idle → ∀ now, handleUp now m = m) := by
  obtain ⟨fuel, evs, m0, hinit, hrun⟩ := hr
  obtain ⟨h1, h2⟩ := run_cue (init_cue hp1 hp2 hinit) hrun
  refine ⟨h1, h2, ?_⟩
  intro hs now
  have hready : m.readyCue = false := by
    cases hc : m.readyCue with
    | false => rfl
    | true => exact absurd (h1.1 hc) (by simp [hs])
  have hup : handleUp now m = { m with readyCue := false } := by
    unfold handleUp
    rw [hs]
  rw [hup, ← hready]

/-- The Idle state `resetMachine` is reachable. -/
theorem reachable_reset : Reachable cycleSource plainPage resetMachine :=
  ⟨1, [(Event.down, 0), (Event.up, 5), (Event.tick, 1235), (Event.down, 1239),
      (Event.down, 1300)], loadedMachine, by decide, by decide⟩

/-- C16 (witness): the reachable Idle state `resetMachine`, one full cycle after loading. -/
theorem cue_function_of_state_witness :
    (resetMachine.readyCue = true ↔ resetMachine.state = TimerState.prepare) ∧
    (resetMachine.runningCue = true ↔ resetMachine.state = TimerState.running) ∧
    (resetMachine.state = TimerState.idle → ∀ now, handleUp now resetMachine = resetMachine) :=
  cue_function_of_state cycleSource plainPage resetMachine rfl rfl reachable_reset

/-! ## The press that acknowledges a result -/

/-- C17 (as amended): on every Stopped machine state `handleDown` returns exactly when the
`generateScramble` call it makes returns, and after it the elapsed time is 0, the time display is
`0.000` and the machine is in Idle; the release (`up`) of that same press changes nothing, so no
timer is started.  Only the next press recommences preparation: its `down` enters Prepare, and
its release at clock reading `now2` starts the timer (`startTime = now2`, a new interval
registered and stored in `timer`, state Running), after which a tick at `t` shows
`formatTime (t - now2)`. -/
theorem down_in_stopped_resets (rnd : Nat → RandomValue) (fuel : Nat) (m : Machine)
    (h : m.state = TimerState.stopped) :
    (handleDown rnd fuel m = none ↔ generateScramble rnd fuel m.randomCalls = none) ∧
    ∀ m1, handleDown rnd fuel m = some m1 →
      m1.elapsedTime = 0 ∧ m1.timeText = "0.000" ∧ m1.state = TimerState.idle ∧
      (∀ now, handleUp now m1 = m1) ∧
      (∀ now fuel1, handleDown rnd fuel1 (handleUp now m1) =
        some { m1 with state := TimerState.prepare, readyCue := true }) ∧
      (∀ now2, handleUp now2 { m1 with state := TimerState.prepare, readyCue := true } =
        { m1 with
          startTime := now2
          timer := some m1.nextTimerId
          intervals := m1.nextTimerId :: m1.intervals
          nextTimerId := m1.nextTimerId + 1
          state := TimerState.running
          readyCue := false
          runningCue := true }) ∧
      (∀ now2 t,
        (tick t (handleUp now2 { m1 with state := TimerState.prepare, readyCue := true })).timeText
          = formatTime (t - now2)) := by
  have e := handleDown_stopped rnd fuel m h
  constructor
  · rw [e]
    cases generateScramble rnd fuel m.randomCalls <;> simp
  · intro m1 h1
    rw [e] at h1
    cases hg : generateScramble rnd fuel m.randomCalls with
    | none => simp [hg] at h1
    | some r =>
      simp only [hg, Option.map_some', Option.some.injEq] at h1
      subst h1
      refine ⟨rfl, (by decide : formatTime 0 = "0.000"), rfl, ?_, ?_, ?_, ?_⟩
      · intro now
        simp [handleUp]
      · intro now fuel1
        simp [handleUp, handleDown]
      · intro now2
        simp [handleUp, startTimer]
      · intro now2 t
        simp [handleUp, startTimer, tick, intervalCallback]

/-- C17 (witness): the acknowledging `down` on `staleMachine` returns `resetMachine`; the release
leaves it as it is, and the next press, released at clock reading 2000, starts the timer. -/
theorem down_in_stopped_resets_witness :
    resetMachine.elapsedTime = 0 ∧ resetMachine.timeText = "0.000" ∧
    resetMachine.state = TimerState.idle ∧
    (∀ now, handleUp now resetMachine = resetMachine) ∧
    (handleUp 2000 { resetMachine with state := TimerState.prepare, readyCue := true }).startTime
      = 2000 ∧
    (handleUp 2000 { resetMachine with state := TimerState.prepare, readyCue := true }).timer
      = some 2 ∧
    (handleUp 2000 { resetMachine with state := TimerState.prepare, readyCue := true }).intervals
      = [2] :=
  have h := (down_in_stopped_resets cycleSource 1 staleMachine rfl).2 resetMachine (by decide)
  ⟨h.1, h.2.1, h.2.2.1, h.2.2.2.1, by rw [h.2.2.2.2.2.1 2000], by rw [h.2.2.2.2.2.1 2000]; rfl,
    by rw [h.2.2.2.2.2.1 2000]; rfl⟩

/-- C17 (counterexample): `down` on the reachable Stopped state `staleMachine` leads to Idle, not
to Prepare, and the release of that press starts no timer: the state stays Idle and no interval
is registered. -/
theorem down_in_stopped_not_prepare :
    handleDown cycleSource 1 staleMachine = some resetMachine ∧
    resetMachine.state = TimerState.idle ∧
    resetMachine.state ≠ TimerState.prepare ∧
    (handleUp 1300 resetMachine).state ≠ TimerState.running ∧
    (handleUp 1300 resetMachine).timer = none ∧
    (handleUp 1300 resetMachine).intervals = [] :=
  ⟨by decide, rfl, by decide, by decide, rfl, rfl⟩

/-! ## What a run measures -/

/-- C18: in every reachable state, `elapsedTime` is 0 when the state is Idle or Prepare; so at a
Prepare to Running transition at clock reading `T` the carried elapsed time is 0 and `startTime`
is `T`, and after any further ticks of that run, the last one at reading `t`, the elapsed time
is `t - T` and the display shows `formatTime (t - T)`. -/
theorem elapsed_zero_before_run (rnd : Nat → RandomValue) (page : Page) (m : Machine)
    (hr : Reachable rnd page m) :
    (m.state = TimerState.idle ∨ m.state = TimerState.prepare → m.elapsedTime = 0) ∧
    (m.state = TimerState.prepare → ∀ T : Int,
      (handleUp T m).state = TimerState.running ∧
      (handleUp T m).elapsedTime = 0 ∧
      (handleUp T m).startTime = T ∧
      ∀ (nows : List Int) (t : Int),
        (ticks (nows ++ [t]) (handleUp T m)).state = TimerState.running ∧
        (ticks (nows ++ [t]) (handleUp T m)).startTime = T ∧
        (ticks (nows ++ [t]) (handleUp T m)).elapsedTime = t - T ∧
        (ticks (nows ++ [t]) (handleUp T m)).timeText = formatTime (t - T)) := by
  have h0 := (reachable_inv hr).2.2
  refine ⟨h0, ?_⟩
  intro hs T
  have he := h0 (Or.inr hs)
  have hup : handleUp T m =
      { startTimer T m with
        state := TimerState.running, readyCue := false, runningCue := true } := by
    simp [handleUp, hs]
  have hstart : (handleUp T m).startTime = T := by simp [hup, startTimer, he]
  have hstate : (handleUp T m).state = TimerState.running := by simp [hup]
  have hint : (handleUp T m).intervals ≠ [] := by simp [hup, startTimer]
  refine ⟨hstate, by simp [hup, startTimer, he], hstart, ?_⟩
  intro nows t
  obtain ⟨f1, f2, -⟩ := ticks_frame (nows ++ [t]) (handleUp T m)
  have hlast := ticks_last (nows ++ [t]) (handleUp T m) hint
  simp only [List.getLast?_append, List.getLast?_singleton, Option.or, hstart] at hlast
  exact ⟨f1.trans hstate, f2.trans hstart, congrArg Prod.fst hlast, congrArg Prod.snd hlast⟩

/-- The Prepare state `preparedMachine` is reachable. -/
theorem reachable_prepared : Reachable cycleSource plainPage preparedMachine :=
  ⟨1, [(Event.down, 0)], loadedMachine, by decide, by decide⟩

/-- C18 (witness): the reachable Prepare state `preparedMachine`, released at clock reading 5 and
ticked at 15 and 1239. -/
theorem elapsed_zero_before_run_witness :
    preparedMachine.elapsedTime = 0 ∧
    (handleUp 5 preparedMachine).startTime = 5 ∧
    (ticks ([15] ++ [1239]) (handleUp 5 preparedMachine)).elapsedTime = 1239 - 5 ∧
    (ticks ([15] ++ [1239]) (handleUp 5 preparedMachine)).timeText = formatTime (1239 - 5) :=
  have h := elapsed_zero_before_run cycleSource plainPage preparedMachine reachable_prepared
  ⟨h.1 (Or.inr rfl), (h.2 rfl 5).2.2.1, ((h.2 rfl 5).2.2.2 [15] 1239).2.2.1,
    ((h.2 rfl 5).2.2.2 [15] 1239).2.2.2⟩

/-! ## The display and the elapsed time -/

/-- C19: every event preserves the predicate "the time display equals `formatTime elapsedTime`";
the predicate holds after every run of the interval callback (so after every tick delivered
while an interval is registered) and after every `down` in Stopped, whatever held before. -/
theorem display_matches_elapsed (rnd : Nat → RandomValue) (fuel : Nat) (m : Machine) (e : Event)
    (now : Int) (m1 : Machine) (hstep : step rnd fuel m e now = some m1) :
    (m.timeText = formatTime m.elapsedTime → m1.timeText = formatTime m1.elapsedTime) ∧
    (intervalCallback now m).timeText = formatTime (intervalCallback now m).elapsedTime ∧
    (e = Event.tick → m.intervals ≠ [] → m1.timeText = formatTime m1.elapsedTime) ∧
    (e = Event.down → m.state = TimerState.stopped →
      m1.timeText = formatTime m1.elapsedTime) := by
  have hdown : m.state = TimerState.stopped → ∀ a, handleDown rnd fuel m = some a →
      a.timeText = formatTime a.elapsedTime := by
    intro hs a ha
    rw [handleDown_stopped rnd fuel m hs] at ha
    cases hg : generateScramble rnd fuel m.randomCalls with
    | none => simp [hg] at ha
    | some r =>
      simp only [hg, Option.map_some', Option.some.injEq] at ha
      subst ha
      rfl
  refine ⟨?_, rfl, ?_, ?_⟩
  · intro hp
    cases e with
    | down =>
      simp only [step] at hstep
      by_cases hs : m.state = TimerState.stopped
      · exact hdown hs m1 hstep
      · obtain ⟨a, ha, -, -, h3, h4⟩ := handleDown_not_stopped rnd fuel m hs
        rw [ha, Option.some.injEq] at hstep
        subst hstep
        rw [h3, h4]
        exact hp
    | up =>
      simp only [step, Option.some.injEq] at hstep
      subst hstep
      obtain ⟨-, -, h3, h4⟩ := handleUp_frame now m
      rw [h3, h4]
      exact hp
    | tick =>
      simp only [step, Option.some.injEq] at hstep
      subst hstep
      unfold tick
      split
      · exact hp
      · rfl
  · intro he hi
    subst he
    simp only [step, Option.some.injEq] at hstep
    subst hstep
    simp [tick, hi, intervalCallback]
  · intro he hs
    subst he
    exact hdown hs m1 hstep

/-- C19 (witness): a tick at clock reading 2005 on `runningMachine`. -/
theorem display_matches_elapsed_witness :
    (runningMachine.timeText = formatTime runningMachine.elapsedTime →
      (tick 2005 runningMachine).timeText = formatTime (tick 2005 runningMachine).elapsedTime) ∧
    (intervalCallback 2005 runningMachine).timeText =
      formatTime (intervalCallback 2005 runningMachine).elapsedTime ∧
    (Event.tick = Event.tick → runningMachine.intervals ≠ [] →
      (tick 2005 runningMachine).timeText = formatTime (tick 2005 runningMachine).elapsedTime) ∧
    (Event.tick = Event.down → runningMachine.state = TimerState.stopped →
      (tick 2005 runningMachine).timeText = formatTime (tick 2005 runningMachine).elapsedTime) :=
  display_matches_elapsed cycleSource 1 runningMachine Event.tick 2005 (tick 2005 runningMachine)
    rfl

/-! ## The rendered scramble -/

theorem intercalate_go_data (sep : String) (l : List String) (acc : String) :
    (String.intercalate.go acc sep l).data =
      acc.data ++ (l.map (fun a => sep.data ++ a.data)).flatten := by
  induction l generalizing acc with
  | nil => simp [String.intercalate.go]
  | cons a rest ih =>
    simp [String.intercalate.go, ih, String.data_append, List.append_assoc]

/-- The characters of a non-empty list of strings joined by two spaces. -/
theorem intercalate_data (a : String) (rest : List String) :
    ("  ".intercalate (a :: rest)).data =
      a.data ++ (rest.map (fun x => ' ' :: ' ' :: x.data)).flatten := by
  simp only [String.intercalate, intercalate_go_data]
  rfl

/-- A piece without a space is read through in one go. -/
theorem splitGo_word (w : List Char) (hw : ' ' ∉ w) (cur rest : List Char) :
    splitGo false cur (w ++ rest) = splitGo false (cur ++ w) rest := by
  induction w generalizing cur with
  | nil => simp
  | cons c cs ih =>
    have hc : c ≠ ' ' := fun h => hw (by simp [h])
    have hcs : ' ' ∉ cs := fun h => hw (by simp [h])
    simp only [List.cons_append, splitGo, hc, if_false, List.append_eq]
    rw [ih hcs]
    simp

theorem splitGo_pieces (pieces : List String) (hp : ∀ x ∈ pieces, ' ' ∉ x.data)
    (cur : List Char) :
    splitGo false cur ((pieces.map (fun x => ' ' :: ' ' :: x.data)).flatten) =
      cur :: pieces.map String.data := by
  induction pieces generalizing cur with
  | nil => simp [splitGo]
  | cons a rest ih =>
    have ha : ' ' ∉ a.data := hp a (by simp)
    have hrest : ∀ x ∈ rest, ' ' ∉ x.data := fun x hx => hp x (by simp [hx])
    simp only [List.map_cons, List.flatten_cons, List.cons_append, splitGo, if_true,
      List.append_eq]
    rw [splitGo_word a.data ha, ih hrest]
    simp

/-- Splitting on two spaces undoes joining by two spaces, for pieces that hold no space. -/
theorem splitDoubleSpace_intercalate (a : String) (rest : List String)
    (hp : ∀ x ∈ a :: rest, ' ' ∉ x.data) :
    splitDoubleSpace ("  ".intercalate (a :: rest)) = a :: rest := by
  unfold splitDoubleSpace
  rw [intercalate_data, splitGo_word a.data (hp a (by simp)),
    splitGo_pieces rest (fun x hx => hp x (by simp [hx]))]
  have hid : (String.mk ∘ String.data) = id := rfl
  simp [hid]

theorem mem_validMoves {f mo : String} (hf : f ∈ faces) (hmo : mo ∈ modifiers) :
    f ++ mo ∈ validMoves := by
  simp only [faces, modifiers, List.mem_cons, List.mem_singleton, List.not_mem_nil,
    or_false] at hf hmo
  rcases hf with rfl | rfl | rfl | rfl | rfl | rfl <;> rcases hmo with rfl | rfl | rfl <;> decide

theorem validMoves_no_space : ∀ mv ∈ validMoves, ' ' ∉ mv.data := by decide

/-- C11: the string returned by `generateScramble` is the 20 generated moves joined by two
spaces; every move is a face letter followed by a modifier symbol, one of the 18 valid moves;
and splitting the returned string on the two-space separator gives back the list of moves. -/
theorem generateScramble_rendering (rnd : Nat → RandomValue) (fuel calls : Nat)
    (s : String) (calls1 : Nat) (h : generateScramble rnd fuel calls = some (s, calls1)) :
    ∃ moves, scrambleMoves rnd fuel calls = some (moves, calls1) ∧
      moves.length = 20 ∧
      s = "  ".intercalate moves ∧
      (∀ mv ∈ moves, mv ∈ validMoves ∧ ∃ f ∈ faces, ∃ mo ∈ modifiers, mv = f ++ mo) ∧
      splitDoubleSpace s = moves := by
  unfold generateScramble at h
  split at h
  · exact absurd h (by simp)
  · rename_i moves c1 hm
    simp only [Option.some.injEq, Prod.mk.injEq] at h
    obtain ⟨rfl, rfl⟩ := h
    obtain ⟨h1, -, h3, -, -⟩ := scrambleLoop_spec scrambleInv_nil hm
    have hvalid : ∀ mv ∈ moves, mv ∈ validMoves ∧ ∃ f ∈ faces, ∃ mo ∈ modifiers, mv = f ++ mo := by
      intro mv hmv
      obtain ⟨f, hf, mo, hmo, rfl⟩ := h3 mv hmv
      exact ⟨mem_validMoves hf hmo, f, hf, mo, hmo, rfl⟩
    have hlen : moves.length = 20 := by simpa [scrambleLength] using h1
    refine ⟨moves, hm, hlen, rfl, hvalid, ?_⟩
    cases moves with
    | nil => simp at hlen
    | cons a rest =>
      exact splitDoubleSpace_intercalate a rest
        (fun x hx => validMoves_no_space x (hvalid x hx).1)

/-- C11 (witness): the scramble generated from the first 40 values of `cycleSource`. -/
theorem generateScramble_rendering_witness :
    ∃ moves, scrambleMoves cycleSource 1 0 = some (moves, 40) ∧
      moves.length = 20 ∧
      cycleScramble = "  ".intercalate moves ∧
      (∀ mv ∈ moves, mv ∈ validMoves ∧ ∃ f ∈ faces, ∃ mo ∈ modifiers, mv = f ++ mo) ∧
      splitDoubleSpace cycleScramble = moves :=
  generateScramble_rendering cycleSource 1 0 cycleScramble 40 (by decide)

/-! ## Reading a formatted time back -/

/-- With enough fuel the digit loop of `Nat.toDigits` yields the digits of `m` in front of the
accumulator. -/
theorem toDigitsCore_eq (m : Nat) :
    ∀ fuel ds, m < fuel → Nat.toDigitsCore 10 fuel m ds = Nat.toDigits 10 m ++ ds := by
  induction m using Nat.strong_induction_on with
  | _ m ih =>
    intro fuel ds hlt
    obtain ⟨f, rfl⟩ : ∃ f, fuel = f + 1 := ⟨fuel - 1, by omega⟩
    by_cases h0 : m / 10 = 0
    · simp [Nat.toDigits, Nat.toDigitsCore, h0]
    · have hlt2 : m / 10 < m := by omega
      have e1 : Nat.toDigitsCore 10 (f + 1) m ds =
          Nat.toDigitsCore 10 f (m / 10) (Nat.digitChar (m % 10) :: ds) := by
        simp [Nat.toDigitsCore, h0]
      have e2 : Nat.toDigits 10 m =
          Nat.toDigitsCore 10 m (m / 10) [Nat.digitChar (m % 10)] := by
        simp [Nat.toDigits, Nat.toDigitsCore, h0]
      rw [e1, e2, ih (m / 10) hlt2 f _ (by omega), ih (m / 10) hlt2 m _ hlt2]
      simp

/-- The decimal digits of `n ≥ 10` are those of `n / 10` followed by the digit `n % 10`. -/
theorem toDigits_step {n : Nat} (h : 10 ≤ n) :
    Nat.toDigits 10 n = Nat.toDigits 10 (n / 10) ++ [Nat.digitChar (n % 10)] := by
  have h0 : n / 10 ≠ 0 := by omega
  have e2 : Nat.toDigits 10 n =
      Nat.toDigitsCore 10 n (n / 10) [Nat.digitChar (n % 10)] := by
    simp [Nat.toDigits, Nat.toDigitsCore, h0]
  rw [e2, toDigitsCore_eq (n / 10) n _ (by omega)]

theorem digitChar_value {d : Nat} (h : d < 10) : (Nat.digitChar d).toNat - '0'.toNat = d := by
  interval_cases d <;> rfl

theorem digitChar_ne_dot {d : Nat} (h : d < 10) : Nat.digitChar d ≠ '.' := by
  interval_cases d <;> decide

theorem readDigits_append_singleton (cs : List Char) (c : Char) :
    readDigits (cs ++ [c]) = 10 * readDigits cs + (c.toNat - '0'.toNat) := by
  simp [readDigits, List.foldl_append]

/-- Reading the decimal rendering of a number gives the number back. -/
theorem readDigits_toDigits (n : Nat) : readDigits (Nat.toDigits 10 n) = n := by
  induction n using Nat.strong_induction_on with
  | _ n ih =>
    rcases Nat.lt_or_ge n 10 with h | h
    · rw [toDigits_one h]
      simpa [readDigits] using digitChar_value h
    · rw [toDigits_step h, readDigits_append_singleton, ih (n / 10) (by omega),
        digitChar_value (Nat.mod_lt n (by decide))]
      omega

/-- The decimal rendering of a number holds no dot. -/
theorem toDigits_no_dot (n : Nat) : ∀ c ∈ Nat.toDigits 10 n, c ≠ '.' := by
  induction n using Nat.strong_induction_on with
  | _ n ih =>
    rcases Nat.lt_or_ge n 10 with h | h
    · rw [toDigits_one h]
      intro c hc
      rw [List.mem_singleton] at hc
      rw [hc]
      exact digitChar_ne_dot h
    · rw [toDigits_step h]
      intro c hc
      rcases List.mem_append.1 hc with h1 | h1
      · exact ih (n / 10) (by omega) c h1
      · rw [List.mem_singleton] at h1
        rw [h1]
        exact digitChar_ne_dot (Nat.mod_lt n (by decide))

theorem takeWhile_before_dot (l r : List Char) (hl : ∀ c ∈ l, c ≠ '.') :
    (l ++ '.' :: r).takeWhile (fun c => c ≠ '.') = l := by
  induction l with
  | nil => simp
  | cons a rest ih =>
    have ha : a ≠ '.' := hl a (by simp)
    simpa [List.takeWhile, ha] using ih (fun c hc => hl c (by simp [hc]))

theorem dropWhile_before_dot (l r : List Char) (hl : ∀ c ∈ l, c ≠ '.') :
    (l ++ '.' :: r).dropWhile (fun c => c ≠ '.') = '.' :: r := by
  induction l with
  | nil => simp
  | cons a rest ih =>
    have ha : a ≠ '.' := hl a (by simp)
    simpa [List.dropWhile, ha] using ih (fun c hc => hl c (by simp [hc]))

/-- The characters of a formatted non-negative time below `2 ^ 53`. -/
theorem formatTime_data (n : Nat) (h : n < 2 ^ 53) :
    (formatTime (n : Int)).data =
      Nat.toDigits 10 (n / 1000) ++
        '.' :: [Nat.digitChar (n % 1000 / 100 % 10), Nat.digitChar (n % 1000 / 10 % 10),
          Nat.digitChar (n % 1000 % 10)] := by
  rw [formatTime_natCast n h]
  simp [specFormat, threeDigits, String.data_append, toString, Nat.repr, List.asString]

theorem formatTime_parts (n : Nat) (h : n < 2 ^ 53) :
    secondsPart (formatTime (n : Int)) = Nat.toDigits 10 (n / 1000) ∧
    millisPart (formatTime (n : Int)) =
      [Nat.digitChar (n % 1000 / 100 % 10), Nat.digitChar (n % 1000 / 10 % 10),
        Nat.digitChar (n % 1000 % 10)] := by
  unfold secondsPart millisPart
  rw [formatTime_data n h, takeWhile_before_dot _ _ (toDigits_no_dot _),
    dropWhile_before_dot _ _ (toDigits_no_dot _)]
  exact ⟨rfl, rfl⟩

theorem readDigits_three (m : Nat) (h : m < 1000) :
    readDigits [Nat.digitChar (m / 100 % 10), Nat.digitChar (m / 10 % 10),
      Nat.digitChar (m % 10)] = m := by
  have h1 := @digitChar_value (m / 100 % 10) (Nat.mod_lt _ (by decide))
  have h2 := @digitChar_value (m / 10 % 10) (Nat.mod_lt _ (by decide))
  have h3 := @digitChar_value (m % 10) (Nat.mod_lt _ (by decide))
  simp only [readDigits, List.foldl, h1, h2, h3]
  omega

/-- C20 (as amended): on non-negative integers below `2 ^ 53`, reading the digits of
`formatTime n` before the dot as an integer `s` and the three digits after it as an integer `m`
gives `s = n / 1000`, `m = n % 1000` and `1000 * s + m = n`; hence `formatTime` is injective
there. -/
theorem formatTime_injective (a b : Nat) (ha : a < 2 ^ 53) (hb : b < 2 ^ 53) :
    readDigits (secondsPart (formatTime (a : Int))) = a / 1000 ∧
    (millisPart (formatTime (a : Int))).length = 3 ∧
    readDigits (millisPart (formatTime (a : Int))) = a % 1000 ∧
    readTime (formatTime (a : Int)) = a ∧
    (formatTime (a : Int) = formatTime (b : Int) → a = b) := by
  have hread : ∀ n : Nat, n < 2 ^ 53 →
      readDigits (secondsPart (formatTime (n : Int))) = n / 1000 ∧
      (millisPart (formatTime (n : Int))).length = 3 ∧
      readDigits (millisPart (formatTime (n : Int))) = n % 1000 ∧
      readTime (formatTime (n : Int)) = n := by
    intro n hn
    obtain ⟨h1, h2⟩ := formatTime_parts n hn
    have e1 : readDigits (secondsPart (formatTime (n : Int))) = n / 1000 := by
      rw [h1, readDigits_toDigits]
    have e2 : readDigits (millisPart (formatTime (n : Int))) = n % 1000 := by
      rw [h2, readDigits_three _ (Nat.mod_lt n (by decide))]
    refine ⟨e1, by rw [h2]; rfl, e2, ?_⟩
    unfold readTime
    rw [e1, e2]
    omega
  obtain ⟨h1, h2, h3, h4⟩ := hread a ha
  refine ⟨h1, h2, h3, h4, ?_⟩
  intro hab
  have h5 := (hread b hb).2.2.2
  rw [← hab, h4] at h5
  exact h5

/-- C20 (witness): `formatTime 61005 = "61.005"` reads back as 61 and 5, and no other
non-negative integer below `2 ^ 53` is formatted as `"61.005"`. -/
theorem formatTime_injective_witness :
    readDigits (secondsPart (formatTime 61005)) = 61 ∧
    readDigits (millisPart (formatTime 61005)) = 5 ∧
    readTime (formatTime 61005) = 61005 ∧
    (∀ b : Nat, b < 2 ^ 53 → formatTime 61005 = formatTime (b : Int) → 61005 = b) :=
  ⟨(formatTime_injective 61005 0 (by decide) (by decide)).1,
    (formatTime_injective 61005 0 (by decide) (by decide)).2.2.1,
    (formatTime_injective 61005 0 (by decide) (by decide)).2.2.2.1,
    fun b hb => (formatTime_injective 61005 b (by decide) hb).2.2.2.2⟩

/-- C20 (counterexample): at the double `140737488355328992` the quotient by 1000 rounds up, the
formatted time is `"140737488355329.992"`, and reading its digits back gives
`140737488355329992`, not the input. -/
theorem formatTime_readback_fails :
    round53 140737488355328992 = 140737488355328992 ∧
    formatTime 140737488355328992 = "140737488355329.992" ∧
    readDigits (secondsPart (formatTime 140737488355328992)) = 140737488355329 ∧
    readDigits (millisPart (formatTime 140737488355328992)) = 992 ∧
    readTime (formatTime 140737488355328992) = 140737488355329992 ∧
    readTime (formatTime 140737488355328992) ≠ 140737488355328992 := by
  have h : formatTime 140737488355328992 = "140737488355329.992" := by decide
  rw [h]
  exact ⟨by decide, rfl, by decide, by decide, by decide, by decide⟩

end CubeTimer
